import Mathlib

set_option maxRecDepth 10000

/-!
Verification of the SWAR Game-of-Life kernel and strip pipeline of pyswargol.

The Python source stores a whole strip of the Life canvas in one big integer,
one nibble (4 bits) per cell, and advances a generation with shifted adds and
bitwise operations.  We embed that integer kernel over `Nat` and relate it to a
naive cell-by-cell Life/Drylife oracle with toroidal wrap.

Layout conventions (mirroring `swargol.py`):
* `STRIDE = width + padding` nibbles per row;
* the working state keeps a `BIAS` of `STRIDE + 2` zero nibbles below the
  payload, the `height × STRIDE` payload above it, and halo rows around it.
-/

namespace Swargol

/-! ### Definitions: nibble calculus over `Nat` -/

/-- Nibble `i` (4-bit little-endian digit) of the natural number `v`. -/
def nib (v i : Nat) : Nat := v / 16 ^ i % 16

/-- The number whose little-endian base-16 digits on `[0, N)` are `f 0, …, f (N-1)`. -/
def sumNib (f : Nat → Nat) (N : Nat) : Nat := ∑ i ∈ Finset.range N, f i * 16 ^ i

/-! ### Definitions: little-endian byte strings

`int.from_bytes(b, "little")` and `int.to_bytes(length, "little")` from the
source are modelled over `List Nat` (each entry one byte). -/

/-- Python `int.from_bytes(l, "little")`. -/
def fromBytesLE (l : List Nat) : Nat := l.foldr (fun b acc => b + 256 * acc) 0

/-- Python `v.to_bytes(len, "little")` for values that fit (see `pyToBytes`). -/
def toBytesLE (len v : Nat) : List Nat := (List.range len).map (fun i => v / 256 ^ i % 256)

/-- Python `v.to_bytes(len, "little")` including the `OverflowError` branch. -/
def pyToBytes (len v : Nat) : Option (List Nat) :=
  if v < 256 ^ len then some (toBytesLE len v) else none

/-- Nibble `k` of a little-endian byte list (low nibble of each byte first). -/
def byteNib (l : List Nat) (k : Nat) : Nat := nib (l.getD (k / 2) 0) (k % 2)

/-- Python `pattern * n` for byte strings. -/
def repeatList (row : List Nat) : Nat → List Nat
  | 0 => []
  | n + 1 => row ++ repeatList row n

/-! ### Definitions: constants and masks of `life_thread`

All definitions below mirror `swargol.py` lines 99-112.  The parameter
`padding` stands for the module constant `WIDTH_PADDING` (16 in the source);
the mask and kernel definitions use it symbolically exactly as the source uses
`WIDTH_PADDING`. -/

/-- Module constant `WIDTH_PADDING = 16`. -/
def WIDTH_PADDING : Nat := 16

/-- Module constant `INDEX4LSB_WORKAROUND = True`. -/
def INDEX4LSB_WORKAROUND : Bool := true

/-- `STRIDE = width + WIDTH_PADDING` (nibbles per row). -/
def STRIDE (padding width : Nat) : Nat := width + padding

/-- `STATE_BYTE_LENGTH = (STRIDE * height) // 2`. -/
def STATE_BYTE_LENGTH (padding width height : Nat) : Nat :=
  STRIDE padding width * height / 2

/-- `COLSHIFT = STRIDE * 4` (bits). -/
def COLSHIFT (padding width : Nat) : Nat := STRIDE padding width * 4

/-- `WRAPSHIFT = STRIDE * height * 4` (bits). -/
def WRAPSHIFT (padding width height : Nat) : Nat := STRIDE padding width * height * 4

/-- `BIAS = (STRIDE + 2) * 4` (bits). -/
def BIAS (padding width : Nat) : Nat := (STRIDE padding width + 2) * 4

/-- `MASK_1 = int.from_bytes(b"\x11" * STATE_BYTE_LENGTH, "little") << BIAS`. -/
def MASK_1 (padding width height : Nat) : Nat :=
  fromBytesLE (List.replicate (STATE_BYTE_LENGTH padding width height) 0x11)
    <<< BIAS padding width

/-- `MASK_CANVAS`: ones on the payload columns, zero on the padding columns. -/
def MASK_CANVAS (padding width height : Nat) : Nat :=
  fromBytesLE (repeatList
    (List.replicate (width / 2) 0x11 ++ List.replicate (padding / 2) 0x00) height)
    <<< BIAS padding width

/-- `MASK_WRAP_LEFT`: the leftmost `padding/2` columns of all `height+2` rows. -/
def MASK_WRAP_LEFT (padding width height : Nat) : Nat :=
  fromBytesLE (repeatList
    (List.replicate (padding / 2 / 2) 0x11
      ++ List.replicate ((width - padding / 2) / 2) 0x00
      ++ List.replicate (padding / 2) 0x00) (height + 2))
    <<< (2 * 4)

/-- `MASK_WRAP_RIGHT`: the rightmost `padding/2` payload columns of all `height+2` rows. -/
def MASK_WRAP_RIGHT (padding width height : Nat) : Nat :=
  fromBytesLE (repeatList
    (List.replicate ((width - padding / 2) / 2) 0x00
      ++ List.replicate (padding / 2 / 2) 0x11
      ++ List.replicate (padding / 2) 0x00) (height + 2))
    <<< (2 * 4)

/-- `MASK_NOT_3 = MASK_1 * (15 ^ 3)` (Python `^` is xor). -/
def MASK_NOT_3 (padding width height : Nat) : Nat :=
  MASK_1 padding width height * (15 ^^^ 3)

/-- `MASK_NOT_4 = MASK_1 * (15 ^ 4)`. -/
def MASK_NOT_4 (padding width height : Nat) : Nat :=
  MASK_1 padding width height * (15 ^^^ 4)

/-- `MASK_NOT_7 = MASK_1 * (15 ^ 7)`. -/
def MASK_NOT_7 (padding width height : Nat) : Nat :=
  MASK_1 padding width height * (15 ^^^ 7)

/-! ### Definitions: the SWAR kernel body (`swargol.py` lines 138-170) -/

/-- Line 138: fold the two received halo-row messages into the state.  The
top-halo bytes are OR'd in with no shift; the bottom-halo bytes are shifted
left by `WRAPSHIFT + BIAS` bits. -/
def vertical_wrap (padding width height : Nat) (state : Nat) (top bot : List Nat) : Nat :=
  state ||| (fromBytesLE top
    ||| (fromBytesLE bot <<< (WRAPSHIFT padding width height + BIAS padding width)))

/-- Line 140: copy the wrap columns across for horizontal toroidal wrap. -/
def horizontal_wrap (padding width height : Nat) (state : Nat) : Nat :=
  state ||| (((state &&& MASK_WRAP_LEFT padding width height) <<< (width * 4))
    ||| ((state &&& MASK_WRAP_RIGHT padding width height) >>> (width * 4)))

/-- Lines 143-145: the four shifted adds accumulating 3x3 neighbourhood sums. -/
def count_neighbors (padding width : Nat) (state : Nat) : Nat :=
  let summed := state + ((state >>> 4) + (state <<< 4))
  summed + ((summed >>> COLSHIFT padding width) + (summed <<< COLSHIFT padding width))

/-- Lines 149-150 (and analogues): `x &= x >> 2; x &= x >> 1`. -/
def fold_nibble (x : Nat) : Nat :=
  let x2 := x &&& (x >>> 2)
  x2 &&& (x2 >>> 1)

/-- Python `a & ~b` on unbounded non-negative ints: keep the bits of `a` not in `b`. -/
def pyAndNot (a b : Nat) : Nat := a ^^^ (a &&& b)

/-- One execution of the SWAR kernel body (`swargol.py` lines 138-170): wrap
incorporation, neighbour summing, equality tests, rule application, clamp. -/
def life_step (drylife : Bool) (padding width height : Nat) (state : Nat)
    (top bot : List Nat) : Nat :=
  let state := vertical_wrap padding width height state top bot
  let state := horizontal_wrap padding width height state
  let summed := count_neighbors padding width state
  let has_3_neighbors := fold_nibble (summed ^^^ MASK_NOT_3 padding width height)
  let has_4_neighbors := fold_nibble (summed ^^^ MASK_NOT_4 padding width height)
  let has_3_neighbors :=
    if drylife then
      has_3_neighbors
        ||| pyAndNot (fold_nibble (summed ^^^ MASK_NOT_7 padding width height)) state
    else has_3_neighbors
  let state := state &&& has_4_neighbors
  let state := state ||| has_3_neighbors
  state &&& MASK_CANVAS padding width height

/-! ### Definitions: the worker loop state and the messages it emits -/

/-- Line 124: `state = (int.from_bytes(seed_bytes, "little") << BIAS) & MASK_CANVAS`. -/
def initial_state (padding width height : Nat) (seed : List Nat) : Nat :=
  (fromBytesLE seed <<< BIAS padding width) &&& MASK_CANVAS padding width height

/-- Line 125: `seed_bytes[:STRIDE//2]`, the pre-sent top seed row. -/
def seed_top_row (padding width : Nat) (seed : List Nat) : List Nat :=
  seed.take (STRIDE padding width / 2)

/-- Line 126: `seed_bytes[-STRIDE//2:]`, the pre-sent bottom seed row. -/
def seed_bottom_row (padding width : Nat) (seed : List Nat) : List Nat :=
  seed.drop (seed.length - STRIDE padding width / 2)

/-- The worker's state after `t` ticks; `tops t`/`bots t` are the halo messages
received from the two pipes during tick `t+1`. -/
def state_at (drylife : Bool) (padding width height : Nat) (seed : List Nat)
    (tops bots : Nat → List Nat) : Nat → Nat
  | 0 => initial_state padding width height seed
  | t + 1 => life_step drylife padding width height
      (state_at drylife padding width height seed tops bots t) (tops t) (bots t)

/-- Line 172: `packed_state = (state >> BIAS).to_bytes(STATE_BYTE_LENGTH, "little")`. -/
def packed_state_at (drylife : Bool) (padding width height : Nat) (seed : List Nat)
    (tops bots : Nat → List Nat) (t : Nat) : List Nat :=
  toBytesLE (STATE_BYTE_LENGTH padding width height)
    (state_at drylife padding width height seed tops bots t >>> BIAS padding width)

/-- Line 173: `packed_state[:STRIDE//2+1]`, the per-tick top halo message. -/
def halo_top_message (padding width : Nat) (packed : List Nat) : List Nat :=
  packed.take (STRIDE padding width / 2 + 1)

/-- Line 174: `packed_state[-(STRIDE//2+1):]`, the per-tick bottom halo message. -/
def halo_bottom_message (padding width : Nat) (packed : List Nat) : List Nat :=
  packed.drop (packed.length - (STRIDE padding width / 2 + 1))

/-- Line 180: the frame-channel message; with the workaround the Python slice
`packed_state[-WIDTH_PADDING//2::-1]` keeps indices `len-8 … 0`, i.e. the
reverse of the first `len - (padding/2 - 1)` bytes. -/
def frame_message (workaround : Bool) (padding : Nat) (packed : List Nat) : List Nat :=
  if workaround then (packed.take (packed.length - (padding / 2 - 1))).reverse
  else packed

/-! ### Definitions: configuration, argument handling and `main` geometry -/

/-- The `LifeConfig` dataclass with its defaults. -/
structure LifeConfig where
  width : Nat := 1280
  height : Nat := 720
  vsync : Bool := true
  fullscreen : Bool := false
  drylife : Bool := true
  frameskip : Nat := 1
  num_procs : Nat := 8

/-- Python `a % b`, with the `ZeroDivisionError` branch made explicit. -/
def py_mod (a b : Nat) : Except String Nat :=
  if b = 0 then Except.error "ZeroDivisionError" else Except.ok (a % b)

/-- Python `divmod(a, b)`, with the `ZeroDivisionError` branch made explicit. -/
def py_divmod (a b : Nat) : Except String (Nat × Nat) :=
  if b = 0 then Except.error "ZeroDivisionError"
  else Except.ok (a / b, a % b)

/-- Lines 313-314: the strip-height partition computed by `main`. -/
def section_heights (height num_procs : Nat) : List Nat :=
  List.replicate (num_procs - height % num_procs) (height / num_procs)
    ++ List.replicate (height % num_procs) (height / num_procs + 1)

/-- Lines 313-314 as executed by `main` (with `divmod`'s error branch): this
runs before any worker process is started. -/
def main_section_heights (cfg : LifeConfig) : Except String (List Nat) :=
  match py_divmod cfg.height cfg.num_procs with
  | Except.error e => Except.error e
  | Except.ok qr =>
      Except.ok (List.replicate (cfg.num_procs - qr.2) qr.1
        ++ List.replicate qr.2 (qr.1 + 1))

/-- One worker tick: the kernel body followed by lines 176-177, where
`framectr % cfg.frameskip` is evaluated (raising `ZeroDivisionError` when
`frameskip` is zero).  Returns the new state and frame counter. -/
def worker_tick (cfg : LifeConfig) (padding height : Nat) (state framectr : Nat)
    (top bot : List Nat) : Except String (Nat × Nat) :=
  let state := life_step cfg.drylife padding cfg.width height state top bot
  let framectr := framectr + 1
  match py_mod framectr cfg.frameskip with
  | Except.error e => Except.error e
  | Except.ok _ => Except.ok (state, framectr)

/-! ### Definitions: the naive cell-by-cell oracle (from the spec) -/

/-- Toroidal canvas lookup. -/
def torus_cell (c : Nat → Nat → Bool) (width height xx yy : Nat) : Bool :=
  c (xx % width) (yy % height)

/-- Toroidal canvas lookup as 0/1. -/
def torus_val (c : Nat → Nat → Bool) (width height xx yy : Nat) : Nat :=
  cond (torus_cell c width height xx yy) 1 0

/-- Number of live cells in the 3x3 toroidal neighbourhood of `(x, y)`, the
cell itself included (the kernel's including-self convention). -/
def neighbour_count (c : Nat → Nat → Bool) (width height x y : Nat) : Nat :=
  torus_val c width height (x + width - 1) (y + height - 1)
    + torus_val c width height (x + width) (y + height - 1)
    + torus_val c width height (x + width + 1) (y + height - 1)
    + torus_val c width height (x + width - 1) (y + height)
    + torus_val c width height (x + width) (y + height)
    + torus_val c width height (x + width + 1) (y + height)
    + torus_val c width height (x + width - 1) (y + height + 1)
    + torus_val c width height (x + width) (y + height + 1)
    + torus_val c width height (x + width + 1) (y + height + 1)

/-- The Life / Drylife rule on including-self neighbour counts:
alive next tick iff count = 3, or alive and count = 4, or (Drylife only)
dead and count = 7. -/
def life_rule (drylife alive : Bool) (count : Nat) : Bool :=
  decide (count = 3) || (alive && decide (count = 4))
    || (drylife && !alive && decide (count = 7))

/-- One naive cell-by-cell step with toroidal wrap. -/
def naive_step (drylife : Bool) (c : Nat → Nat → Bool) (width height x y : Nat) : Bool :=
  life_rule drylife (c x y) (neighbour_count c width height x y)

/-! ### Definitions: abstraction between canvases and packed state -/

/-- Payload nibble `q` (row-major, stride `STRIDE`) of the canvas `c`:
1 where the cell is alive, 0 on dead cells and padding columns. -/
def canvas_nib (padding width : Nat) (c : Nat → Nat → Bool) (q : Nat) : Nat :=
  if q % STRIDE padding width < width
  then cond (c (q % STRIDE padding width) (q / STRIDE padding width)) 1 0
  else 0

/-- The working-state integer holding canvas `c` (payload at `BIAS`, padding
columns zero) - the abstraction function of the refinement claims. -/
def encode_canvas (padding width height : Nat) (c : Nat → Nat → Bool) : Nat :=
  sumNib (canvas_nib padding width c) (STRIDE padding width * height)
    <<< BIAS padding width

/-- Cell `(x, y)` of the canvas stored in working-state integer `st`. -/
def decode_cell (padding width : Nat) (st x y : Nat) : Bool :=
  decide (nib st (STRIDE padding width + 2 + y * STRIDE padding width + x) = 1)

/-- The packed byte string of an encoded canvas (what `packed_state` holds). -/
def packed_of (padding width height : Nat) (c : Nat → Nat → Bool) : List Nat :=
  toBytesLE (STATE_BYTE_LENGTH padding width height)
    (encode_canvas padding width height c >>> BIAS padding width)

/-- Modelled from the spec: claim C3's version of the halo incorporation, with
the top-halo bytes shifted left by BIAS nibbles (the source shifts them by 0). -/
def claimed_vertical_wrap (padding width height : Nat) (state : Nat)
    (top bot : List Nat) : Nat :=
  state ||| ((fromBytesLE top <<< BIAS padding width)
    ||| (fromBytesLE bot <<< (WRAPSHIFT padding width height + BIAS padding width)))

/-! ### Definitions: nibble-level ghost functions used by the kernel proof
(these describe the state of the `padding = 4` kernel; they are proof
artifacts, not source translations) -/

/-- Payload nibble `q` of canvas `c` as a Bool, with the payload bound explicit. -/
def pnib4 (width height : Nat) (c : Nat → Nat → Bool) (q : Nat) : Bool :=
  decide (q < (width + 4) * height) && decide (q % (width + 4) < width)
    && c (q % (width + 4)) (q / (width + 4))

/-- Support of `MASK_1` (padding 4): the whole `S*height` block above the bias. -/
def m1conj (width height n : Nat) : Bool :=
  decide ((width + 4) + 2 ≤ n) && decide (n - ((width + 4) + 2) < (width + 4) * height)

/-- Support of `MASK_CANVAS` (padding 4): payload columns of the block. -/
def canvconj (width height n : Nat) : Bool :=
  m1conj width height n && decide ((n - ((width + 4) + 2)) % (width + 4) < width)

/-- Support of `MASK_WRAP_LEFT` (padding 4): columns 0..1 of rows -1..height. -/
def mlconj (width height m : Nat) : Bool :=
  decide (2 ≤ m) && decide (m - 2 < (width + 4) * (height + 2))
    && decide ((m - 2) % (width + 4) < 2)

/-- Support of `MASK_WRAP_RIGHT` (padding 4): columns width-2..width-1 of rows
-1..height. -/
def mrconj (width height m : Nat) : Bool :=
  decide (2 ≤ m) && decide (m - 2 < (width + 4) * (height + 2))
    && decide (width - 2 ≤ (m - 2) % (width + 4))
    && decide ((m - 2) % (width + 4) < width)

/-- Nibble pattern of the state after `vertical_wrap` in the one-strip ring:
OR of the encoded payload with the two received messages (the own bottom-row
message at offset 0, the own top-row message at `WRAPSHIFT + BIAS`). -/
def s1fn (width height : Nat) (c : Nat → Nat → Bool) (n : Nat) : Bool :=
  (decide ((width + 4) + 2 ≤ n) && pnib4 width height c (n - ((width + 4) + 2)))
    || (pnib4 width height c ((width + 4) * height - ((width + 4) + 2) + n)
      || (decide ((width + 4) * height + ((width + 4) + 2) ≤ n)
        && (decide (n - ((width + 4) * height + ((width + 4) + 2)) < (width + 4) + 2)
          && pnib4 width height c (n - ((width + 4) * height + ((width + 4) + 2))))))

/-- Contribution of `(state & MASK_WRAP_LEFT) << width*4` at nibble `n`. -/
def wrapLfn (width height : Nat) (c : Nat → Nat → Bool) (n : Nat) : Bool :=
  decide (width ≤ n)
    && (s1fn width height c (n - width) && mlconj width height (n - width))

/-- Contribution of `(state & MASK_WRAP_RIGHT) >> width*4` at nibble `n`. -/
def wrapRfn (width height : Nat) (c : Nat → Nat → Bool) (n : Nat) : Bool :=
  s1fn width height c (n + width) && mrconj width height (n + width)

/-- Nibble pattern of the state after `horizontal_wrap` in the one-strip ring. -/
def s2fn (width height : Nat) (c : Nat → Nat → Bool) (n : Nat) : Bool :=
  s1fn width height c n || (wrapLfn width height c n || wrapRfn width height c n)

/-- The kernel's working state after both wrap steps, fed by the one-strip
ring's own messages (abbreviation used by the refinement proof). -/
def c1_state2 (width height : Nat) (c : Nat → Nat → Bool) : Nat :=
  horizontal_wrap 4 width height
    (vertical_wrap 4 width height (encode_canvas 4 width height c)
      (halo_bottom_message 4 width (packed_of 4 width height c))
      (halo_top_message 4 width (packed_of 4 width height c)))

/-! ### Theorems: nibble calculus -/

theorem nib_lt (v i : Nat) : nib v i < 16 := Nat.mod_lt _ (by norm_num)

theorem pow16_eq (i : Nat) : (16 : Nat) ^ i = 2 ^ (4 * i) := by
  rw [Nat.pow_mul]

theorem testBit_nib (v i : Nat) {j : Nat} (hj : j < 4) :
    (nib v i).testBit j = v.testBit (4 * i + j) := by
  unfold nib
  have h16 : (16 : Nat) = 2 ^ 4 := by norm_num
  rw [pow16_eq, h16, Nat.testBit_mod_two_pow, ← Nat.shiftRight_eq_div_pow,
    Nat.testBit_shiftRight]
  simp [hj]

theorem testBit_nib_ge (v i : Nat) {j : Nat} (hj : 4 ≤ j) :
    (nib v i).testBit j = false := by
  apply Nat.testBit_eq_false_of_lt
  calc nib v i < 16 := nib_lt v i
    _ = 2 ^ 4 := by norm_num
    _ ≤ 2 ^ j := Nat.pow_le_pow_right (by norm_num) hj

theorem nib_eq_of_testBit_eq {a b : Nat} (h : ∀ j, j < 4 → a.testBit j = b.testBit j)
    (ha : a < 16) (hb : b < 16) : a = b := by
  apply Nat.eq_of_testBit_eq
  intro j
  by_cases hj : j < 4
  · exact h j hj
  · have h4 : 4 ≤ j := Nat.le_of_not_lt hj
    have h16 : (16 : Nat) = 2 ^ 4 := by norm_num
    rw [Nat.testBit_eq_false_of_lt, Nat.testBit_eq_false_of_lt]
    · exact lt_of_lt_of_le (h16 ▸ hb) (Nat.pow_le_pow_right (by norm_num) h4)
    · exact lt_of_lt_of_le (h16 ▸ ha) (Nat.pow_le_pow_right (by norm_num) h4)

theorem nib_lor (a b i : Nat) : nib (a ||| b) i = nib a i ||| nib b i := by
  have hb : nib a i ||| nib b i < 16 := by
    have := Nat.or_lt_two_pow (n := 4) (by simpa using nib_lt a i) (by simpa using nib_lt b i)
    simpa using this
  apply nib_eq_of_testBit_eq _ (nib_lt _ _) hb
  intro j hj
  rw [testBit_nib _ _ hj, Nat.testBit_lor, Nat.testBit_lor,
    testBit_nib _ _ hj, testBit_nib _ _ hj]

theorem nib_land (a b i : Nat) : nib (a &&& b) i = nib a i &&& nib b i := by
  apply nib_eq_of_testBit_eq _ (nib_lt _ _) (lt_of_le_of_lt Nat.and_le_left (nib_lt _ _))
  intro j hj
  rw [testBit_nib _ _ hj, Nat.testBit_land, Nat.testBit_land,
    testBit_nib _ _ hj, testBit_nib _ _ hj]

theorem nib_xor (a b i : Nat) : nib (a ^^^ b) i = nib a i ^^^ nib b i := by
  have hb : nib a i ^^^ nib b i < 16 := by
    have := Nat.xor_lt_two_pow (n := 4) (by simpa using nib_lt a i) (by simpa using nib_lt b i)
    simpa using this
  apply nib_eq_of_testBit_eq _ (nib_lt _ _) hb
  intro j hj
  rw [testBit_nib _ _ hj, Nat.testBit_xor, Nat.testBit_xor,
    testBit_nib _ _ hj, testBit_nib _ _ hj]

theorem nib_shiftRight (v k i : Nat) : nib (v >>> (4 * k)) i = nib v (k + i) := by
  unfold nib
  rw [Nat.shiftRight_eq_div_pow, ← pow16_eq, Nat.div_div_eq_div_mul, ← pow_add]

theorem nib_shiftLeft (v k i : Nat) :
    nib (v <<< (4 * k)) i = if i < k then 0 else nib v (i - k) := by
  unfold nib
  rw [Nat.shiftLeft_eq, ← pow16_eq]
  by_cases h : i < k
  · simp only [h, if_true]
    have hk : i ≤ k := Nat.le_of_lt h
    have hsplit : (16 : Nat) ^ k = 16 ^ i * 16 ^ (k - i) := by
      rw [← pow_add, Nat.add_sub_cancel' hk]
    have hdiv : v * 16 ^ k / 16 ^ i = v * 16 ^ (k - i) := by
      rw [hsplit, ← mul_assoc, mul_comm v (16 ^ i), mul_assoc,
        Nat.mul_div_cancel_left _ (by positivity)]
    rw [hdiv]
    have hsplit2 : v * 16 ^ (k - i) = v * 16 ^ (k - i - 1) * 16 := by
      rw [mul_assoc, ← pow_succ]
      congr 2
      omega
    rw [hsplit2, Nat.mul_mod_left]
  · simp only [h, if_false]
    have hk : k ≤ i := Nat.le_of_not_lt h
    have : (16 : Nat) ^ i = 16 ^ k * 16 ^ (i - k) := by
      rw [← pow_add, Nat.add_sub_cancel' hk]
    rw [this, ← Nat.div_div_eq_div_mul, Nat.mul_div_cancel _ (by positivity)]

theorem nib_zero (i : Nat) : nib 0 i = 0 := by unfold nib; simp

theorem nib_eq_zero_of_lt {v : Nat} {N : Nat} (h : v < 16 ^ N) {i : Nat} (hi : N ≤ i) :
    nib v i = 0 := by
  unfold nib
  have : v / 16 ^ i = 0 := Nat.div_eq_of_lt (lt_of_lt_of_le h (Nat.pow_le_pow_right (by norm_num) hi))
  simp [this]

theorem sumNib_zero (f : Nat → Nat) : sumNib f 0 = 0 := by simp [sumNib]

theorem sumNib_succ_head (f : Nat → Nat) (N : Nat) :
    sumNib f (N + 1) = f 0 + 16 * sumNib (fun i => f (i + 1)) N := by
  unfold sumNib
  rw [Finset.sum_range_succ' (fun i => f i * 16 ^ i) N]
  rw [Finset.mul_sum]
  simp only [pow_succ, pow_zero, mul_one]
  rw [Nat.add_comm]
  congr 1
  apply Finset.sum_congr rfl
  intro i _
  ring

theorem sumNib_lt (f : Nat → Nat) (N : Nat) (hf : ∀ i, f i < 16) :
    sumNib f N < 16 ^ N := by
  induction N generalizing f with
  | zero => simp [sumNib]
  | succ M ih =>
    rw [sumNib_succ_head]
    have h1 := hf 0
    have h2 := ih (fun i => f (i + 1)) (fun i => hf (i + 1))
    have : (16 : Nat) ^ (M + 1) = 16 * 16 ^ M := by ring
    omega

theorem nib_sumNib (f : Nat → Nat) (N : Nat) (hf : ∀ i, f i < 16) (i : Nat) :
    nib (sumNib f N) i = if i < N then f i else 0 := by
  induction i generalizing f N with
  | zero =>
    cases N with
    | zero => simp [sumNib, nib]
    | succ M =>
      rw [sumNib_succ_head]
      unfold nib
      simp only [pow_zero, Nat.div_one]
      rw [Nat.add_mul_mod_self_left (f 0) 16 _]
      simp [Nat.mod_eq_of_lt (hf 0), Nat.succ_pos]
  | succ j ih =>
    cases N with
    | zero =>
      simp [sumNib, nib]
    | succ M =>
      rw [sumNib_succ_head]
      have hv : (f 0 + 16 * sumNib (fun i => f (i + 1)) M) / 16 = sumNib (fun i => f (i + 1)) M := by
        rw [Nat.add_mul_div_left _ _ (by norm_num), Nat.div_eq_of_lt (hf 0), Nat.zero_add]
      have : nib (f 0 + 16 * sumNib (fun i => f (i + 1)) M) (j + 1)
          = nib (sumNib (fun i => f (i + 1)) M) j := by
        unfold nib
        rw [pow_succ, mul_comm (16 ^ j) 16, ← Nat.div_div_eq_div_mul, hv]
      rw [this, ih (fun i => f (i + 1)) M (fun i => hf (i + 1))]
      by_cases h : j < M <;> simp [h, Nat.succ_lt_succ_iff]

theorem sumNib_nib {a : Nat} {N : Nat} (h : a < 16 ^ N) :
    sumNib (fun i => nib a i) N = a := by
  induction N generalizing a with
  | zero =>
    have : a = 0 := Nat.lt_one_iff.mp (by simpa using h)
    simp [this, sumNib]
  | succ M ih =>
    rw [sumNib_succ_head]
    have h1 : nib a 0 = a % 16 := by unfold nib; simp
    have h2 : ∀ i, nib a (i + 1) = nib (a / 16) i := by
      intro i
      unfold nib
      rw [pow_succ, mul_comm (16 ^ i) 16, ← Nat.div_div_eq_div_mul]
    have h3 : a / 16 < 16 ^ M := by
      rw [Nat.div_lt_iff_lt_mul (by norm_num)]
      calc a < 16 ^ (M + 1) := h
        _ = 16 ^ M * 16 := by ring
    have he : (fun i => nib a (i + 1)) = fun i => nib (a / 16) i := funext h2
    rw [h1, he, ih h3]
    omega

theorem sumNib_add (f g : Nat → Nat) (N : Nat) :
    sumNib f N + sumNib g N = sumNib (fun i => f i + g i) N := by
  unfold sumNib
  rw [← Finset.sum_add_distrib]
  apply Finset.sum_congr rfl
  intro i _
  ring

theorem sumNib_mul (f : Nat → Nat) (N c : Nat) :
    sumNib f N * c = sumNib (fun i => f i * c) N := by
  unfold sumNib
  rw [Finset.sum_mul]
  apply Finset.sum_congr rfl
  intro i _
  ring

/-- Base-16 addition with all digit sums below 16 produces no carries. -/
theorem nib_add {a b : Nat} (h : ∀ j, nib a j + nib b j < 16) (i : Nat) :
    nib (a + b) i = nib a i + nib b i := by
  obtain ⟨N, hNa, hNb, hNi⟩ : ∃ N, a < 16 ^ N ∧ b < 16 ^ N ∧ i < N := by
    refine ⟨a + b + i + 1, ?_, ?_, by omega⟩
    · calc a < 2 ^ a := Nat.lt_two_pow a
        _ ≤ 16 ^ a := Nat.pow_le_pow_left (by norm_num) a
        _ ≤ 16 ^ (a + b + i + 1) := Nat.pow_le_pow_right (by norm_num) (by omega)
    · calc b < 2 ^ b := Nat.lt_two_pow b
        _ ≤ 16 ^ b := Nat.pow_le_pow_left (by norm_num) b
        _ ≤ 16 ^ (a + b + i + 1) := Nat.pow_le_pow_right (by norm_num) (by omega)
  have ha : sumNib (fun i => nib a i) N = a := sumNib_nib hNa
  have hb : sumNib (fun i => nib b i) N = b := sumNib_nib hNb
  have : a + b = sumNib (fun i => nib a i + nib b i) N := by
    rw [← sumNib_add, ha, hb]
  rw [this, nib_sumNib _ _ h, if_pos hNi]

/-! ### Theorems: byte strings -/

theorem fromBytesLE_nil : fromBytesLE [] = 0 := rfl

theorem fromBytesLE_cons (b : Nat) (t : List Nat) :
    fromBytesLE (b :: t) = b + 256 * fromBytesLE t := rfl

theorem byteNib_nil (k : Nat) : byteNib [] k = 0 := by
  unfold byteNib
  simp [List.getD, nib_zero]

theorem nib_fromBytesLE {l : List Nat} (hl : ∀ b ∈ l, b < 256) (k : Nat) :
    nib (fromBytesLE l) k = byteNib l k := by
  induction l generalizing k with
  | nil => simp [fromBytesLE_nil, nib_zero, byteNib_nil]
  | cons b t ih =>
    have hb : b < 256 := hl b (List.mem_cons_self b t)
    have ht : ∀ x ∈ t, x < 256 := fun x hx => hl x (List.mem_cons_of_mem _ hx)
    rw [fromBytesLE_cons]
    match k with
    | 0 =>
      have hR : byteNib (b :: t) 0 = b % 16 := by
        unfold byteNib nib
        simp only [Nat.zero_div, Nat.zero_mod, List.getD_cons_zero, pow_zero, Nat.div_one]
      have hL : nib (b + 256 * fromBytesLE t) 0 = b % 16 := by
        unfold nib
        simp only [pow_zero, Nat.div_one]
        have h256 : b + 256 * fromBytesLE t = b + 16 * (16 * fromBytesLE t) := by ring
        rw [h256, Nat.add_mul_mod_self_left]
      rw [hL, hR]
    | 1 =>
      have hR : byteNib (b :: t) 1 = b / 16 % 16 := by
        unfold byteNib nib
        norm_num
      have hL : nib (b + 256 * fromBytesLE t) 1 = b / 16 % 16 := by
        unfold nib
        rw [pow_one]
        have h256 : b + 256 * fromBytesLE t = b + 16 * (16 * fromBytesLE t) := by ring
        rw [h256, Nat.add_mul_div_left _ _ (by norm_num), Nat.add_mul_mod_self_left]
      rw [hL, hR]
    | (k + 2) =>
      have hdiv : (b + 256 * fromBytesLE t) / 256 = fromBytesLE t := by
        rw [Nat.add_mul_div_left _ _ (by norm_num), Nat.div_eq_of_lt hb, Nat.zero_add]
      have hnib : nib (b + 256 * fromBytesLE t) (k + 2) = nib (fromBytesLE t) k := by
        unfold nib
        have hpow : (16 : Nat) ^ (k + 2) = 256 * 16 ^ k := by ring
        rw [hpow, mul_comm 256 (16 ^ k), ← Nat.div_div_eq_div_mul,
          Nat.div_div_eq_div_mul, mul_comm (16 ^ k) 256, ← Nat.div_div_eq_div_mul, hdiv]
      rw [hnib, ih ht]
      unfold byteNib
      have h2 : (k + 2) / 2 = k / 2 + 1 := by omega
      have h3 : (k + 2) % 2 = k % 2 := by omega
      rw [h2, h3, List.getD_cons_succ]

theorem fromBytesLE_lt {l : List Nat} (hl : ∀ b ∈ l, b < 256) :
    fromBytesLE l < 256 ^ l.length := by
  induction l with
  | nil => simp [fromBytesLE_nil]
  | cons b t ih =>
    have hb : b < 256 := hl b (List.mem_cons_self b t)
    have ht := ih (fun x hx => hl x (List.mem_cons_of_mem _ hx))
    rw [fromBytesLE_cons]
    have hpow : (256 : Nat) ^ (b :: t).length = 256 * 256 ^ t.length := by
      simp [List.length_cons]
      ring
    omega

theorem length_toBytesLE (len v : Nat) : (toBytesLE len v).length = len := by
  simp [toBytesLE]

theorem getD_toBytesLE (len v i : Nat) :
    (toBytesLE len v).getD i 0 = if i < len then v / 256 ^ i % 256 else 0 := by
  unfold toBytesLE
  rw [List.getD_eq_getElem?_getD, List.getElem?_map]
  by_cases h : i < len
  · rw [List.getElem?_range h]
    simp [h]
  · rw [List.getElem?_eq_none (by simpa using Nat.le_of_not_lt h)]
    simp [h]

theorem toBytesLE_lt (len v : Nat) : ∀ b ∈ toBytesLE len v, b < 256 := by
  intro b hb
  unfold toBytesLE at hb
  obtain ⟨i, _, rfl⟩ := List.mem_map.mp hb
  exact Nat.mod_lt _ (by norm_num)

theorem byteNib_toBytesLE (len v k : Nat) :
    byteNib (toBytesLE len v) k = if k < 2 * len then nib v k else 0 := by
  unfold byteNib
  rw [getD_toBytesLE]
  have hiff : k / 2 < len ↔ k < 2 * len := by omega
  by_cases h : k / 2 < len
  · rw [if_pos h, if_pos (hiff.mp h)]
    have hq : (256 : Nat) ^ (k / 2) = 16 ^ (2 * (k / 2)) := by
      rw [pow_mul]
      norm_num
    rcases Nat.mod_two_eq_zero_or_one k with hr | hr
    · have hk : 2 * (k / 2) = k := by omega
      unfold nib
      rw [hr, pow_zero, Nat.div_one,
        Nat.mod_mod_of_dvd _ (by norm_num : (16 : Nat) ∣ 256), hq, hk]
    · have hk : 2 * (k / 2) + 1 = k := by omega
      unfold nib
      rw [hr, pow_one]
      have hm : ∀ m : Nat, m % 256 / 16 = m / 16 % 16 := by
        intro m
        rw [(by norm_num : (256 : Nat) = 16 * 16), Nat.mod_mul_right_div_self]
      rw [hm, Nat.mod_mod_of_dvd _ dvd_rfl, Nat.div_div_eq_div_mul, hq, ← pow_succ, hk]
  · rw [if_neg h, if_neg (fun hc => h (hiff.mpr hc)), nib_zero]

theorem length_repeatList (row : List Nat) (n : Nat) :
    (repeatList row n).length = n * row.length := by
  induction n with
  | zero => simp [repeatList]
  | succ m ih => simp [repeatList, ih]; ring

theorem getD_append_bytes (l₁ l₂ : List Nat) (k : Nat) :
    (l₁ ++ l₂).getD k 0 = if k < l₁.length then l₁.getD k 0 else l₂.getD (k - l₁.length) 0 := by
  rw [List.getD_eq_getElem?_getD, List.getElem?_append]
  by_cases h : k < l₁.length <;> simp [h, List.getD_eq_getElem?_getD]

theorem getD_replicate_bytes (n a k : Nat) :
    (List.replicate n a).getD k 0 = if k < n then a else 0 := by
  rw [List.getD_eq_getElem?_getD, List.getElem?_replicate]
  by_cases h : k < n <;> simp [h]

theorem getD_repeatList {row : List Nat} {L : Nat} (hL : row.length = L) (n k : Nat) :
    (repeatList row n).getD k 0 = if k < n * L then row.getD (k % L) 0 else 0 := by
  induction n generalizing k with
  | zero => simp [repeatList, List.getD]
  | succ m ih =>
    unfold repeatList
    rw [getD_append_bytes, hL]
    by_cases h : k < L
    · have hml : k < (m + 1) * L := by
        have : 0 < L := by omega
        calc k < L := h
          _ ≤ (m + 1) * L := by nlinarith
      rw [if_pos h, if_pos hml, Nat.mod_eq_of_lt h]
    · rw [if_neg h, ih]
      have hLpos : L = 0 ∨ 0 < L := by omega
      rcases hLpos with h0 | hpos
      · subst h0
        simp
      · have hk : L ≤ k := Nat.le_of_not_lt h
        have hmod : (k - L) % L = k % L := by
          conv_rhs => rw [← Nat.sub_add_cancel hk]
          rw [Nat.add_mod_right]
        have hcond : k - L < m * L ↔ k < (m + 1) * L := by
          constructor <;> intro hc <;> nlinarith [Nat.sub_add_cancel hk]
        by_cases hc : k - L < m * L
        · rw [if_pos hc, if_pos (hcond.mp hc), hmod]
        · rw [if_neg hc, if_neg (fun hx => hc (hcond.mpr hx))]

theorem mem_repeatList {row : List Nat} {n : Nat} {b : Nat} (h : b ∈ repeatList row n) :
    b ∈ row := by
  induction n with
  | zero => simp [repeatList] at h
  | succ m ih =>
    unfold repeatList at h
    rcases List.mem_append.mp h with h1 | h2
    · exact h1
    · exact ih h2

theorem getD_zero_or_mem (l : List Nat) (i : Nat) : l.getD i 0 = 0 ∨ l.getD i 0 ∈ l := by
  induction l generalizing i with
  | nil => left; simp [List.getD]
  | cons b t ih =>
    match i with
    | 0 => right; rw [List.getD_cons_zero]; exact List.mem_cons_self b t
    | (j + 1) =>
      rw [List.getD_cons_succ]
      rcases ih j with h | h
      · left; exact h
      · right; exact List.mem_cons_of_mem _ h

/-! ### Theorems: single-nibble shifts -/

theorem nib_shiftRight4 (v i : Nat) : nib (v >>> 4) i = nib v (i + 1) := by
  have h := nib_shiftRight v 1 i
  rw [show 4 * 1 = 4 from rfl] at h
  rw [h, Nat.add_comm]

theorem nib_shiftLeft4 (v i : Nat) : nib (v <<< 4) i = if i = 0 then 0 else nib v (i - 1) := by
  have h := nib_shiftLeft v 1 i
  rw [show 4 * 1 = 4 from rfl] at h
  rw [h]
  by_cases hi : i = 0
  · simp [hi]
  · have hlt : ¬ (i < 1) := by omega
    simp [hlt, hi]

theorem nib_shiftRight_col (v S i : Nat) : nib (v >>> (S * 4)) i = nib v (i + S) := by
  have h := nib_shiftRight v S i
  rw [show 4 * S = S * 4 from Nat.mul_comm 4 S] at h
  rw [h, Nat.add_comm]

theorem nib_shiftLeft_col (v S i : Nat) :
    nib (v <<< (S * 4)) i = if i < S then 0 else nib v (i - S) := by
  have h := nib_shiftLeft v S i
  rw [show 4 * S = S * 4 from Nat.mul_comm 4 S] at h
  exact h

/-! ### Theorems: neighbour counting (claim C6) -/

/-- Main lemma behind claim C6: on a working state whose nibbles are all 0 or 1,
after the four shifted adds every payload nibble of `summed` holds the sum of
the 3x3 neighbourhood (in the linear nibble layout) centred on that cell, a
value in 0..9; no carry ever crosses a nibble boundary. -/
theorem count_neighbors_local (padding width : Nat) (state : Nat)
    (hb : ∀ i, nib state i ≤ 1) (n : Nat) (hn : STRIDE padding width + 2 ≤ n) :
    nib (count_neighbors padding width state) n
      = nib state (n - STRIDE padding width - 1) + nib state (n - STRIDE padding width)
        + nib state (n - STRIDE padding width + 1)
        + nib state (n - 1) + nib state n + nib state (n + 1)
        + nib state (n + STRIDE padding width - 1) + nib state (n + STRIDE padding width)
        + nib state (n + STRIDE padding width + 1)
    ∧ nib (count_neighbors padding width state) n ≤ 9 := by
  unfold count_neighbors COLSHIFT
  set S := STRIDE padding width with hS
  have hcar1 : ∀ j, nib (state >>> 4) j + nib (state <<< 4) j < 16 := by
    intro j
    have h1 : nib (state >>> 4) j ≤ 1 := by
      rw [nib_shiftRight4]
      exact hb _
    have h2 : nib (state <<< 4) j ≤ 1 := by
      rw [nib_shiftLeft4]
      by_cases hj : j = 0
      · simp [hj]
      · rw [if_neg hj]
        exact hb _
    omega
  have hA : ∀ i, nib (state + ((state >>> 4) + (state <<< 4))) i
      = nib state i + (nib state (i + 1) + (if i = 0 then 0 else nib state (i - 1))) := by
    intro i
    have hBj : ∀ j, nib ((state >>> 4) + (state <<< 4)) j
        = nib state (j + 1) + (if j = 0 then 0 else nib state (j - 1)) := by
      intro j
      rw [nib_add hcar1, nib_shiftRight4, nib_shiftLeft4]
    have hcar2 : ∀ j, nib state j + nib ((state >>> 4) + (state <<< 4)) j < 16 := by
      intro j
      rw [hBj j]
      have h1 := hb j
      have h2 := hb (j + 1)
      have h3 := hb (j - 1)
      by_cases hj : j = 0
      · subst hj
        rw [if_pos rfl]
        have h4 := hb 0
        have h5 := hb 1
        omega
      · rw [if_neg hj]
        omega
    rw [nib_add hcar2, hBj]
  have hAb : ∀ i, nib (state + ((state >>> 4) + (state <<< 4))) i ≤ 3 := by
    intro i
    rw [hA i]
    have h1 := hb i
    have h2 := hb (i + 1)
    have h3 := hb (i - 1)
    by_cases hi : i = 0
    · subst hi
      rw [if_pos rfl]
      have h4 := hb 0
      have h5 := hb 1
      omega
    · rw [if_neg hi]
      omega
  set A := state + ((state >>> 4) + (state <<< 4)) with hAdef
  have hcar3 : ∀ j, nib (A >>> (S * 4)) j + nib (A <<< (S * 4)) j < 16 := by
    intro j
    have h1 : nib (A >>> (S * 4)) j ≤ 3 := by
      rw [nib_shiftRight_col]
      exact hAb _
    have h2 : nib (A <<< (S * 4)) j ≤ 3 := by
      rw [nib_shiftLeft_col]
      by_cases hj : j < S
      · simp [hj]
      · rw [if_neg hj]
        exact hAb _
    omega
  have hCj : ∀ j, nib ((A >>> (S * 4)) + (A <<< (S * 4))) j
      = nib A (j + S) + (if j < S then 0 else nib A (j - S)) := by
    intro j
    rw [nib_add hcar3, nib_shiftRight_col, nib_shiftLeft_col]
  have hcar4 : ∀ j, nib A j + nib ((A >>> (S * 4)) + (A <<< (S * 4))) j < 16 := by
    intro j
    rw [hCj j]
    have h1 := hAb j
    have h2 := hAb (j + S)
    have h3 := hAb (j - S)
    by_cases hj : j < S <;> simp [hj] <;> omega
  have hfinal : nib (A + ((A >>> (S * 4)) + (A <<< (S * 4)))) n
      = nib A n + (nib A (n + S) + nib A (n - S)) := by
    rw [nib_add hcar4, hCj]
    have hj : ¬ (n < S) := by omega
    rw [if_neg hj]
  rw [hfinal, hA n, hA (n + S), hA (n - S)]
  have h0 : ¬ (n = 0) := by omega
  have h1 : ¬ (n + S = 0) := by omega
  have h2 : ¬ (n - S = 0) := by omega
  rw [if_neg h0, if_neg h1, if_neg h2]
  have e1 : n + S - 1 = n + S - 1 := rfl
  have e2 : n - S + 1 = n - S + 1 := rfl
  constructor
  · ring
  · have b1 := hb (n - 1)
    have b2 := hb n
    have b3 := hb (n + 1)
    have b4 := hb (n + S - 1)
    have b5 := hb (n + S)
    have b6 := hb (n + S + 1)
    have b7 := hb (n - S - 1)
    have b8 := hb (n - S)
    have b9 := hb (n - S + 1)
    omega

/-- Claim C6: on a working state whose nibbles are all 0 or 1, after the four
shifted adds every payload nibble of `summed` holds the sum of the 3x3
neighbourhood (in the linear nibble layout) centred on that cell, a value
in 0..9; no carry ever crosses a nibble boundary. -/
theorem count_neighbors_is_local_sum (padding width : Nat) (state : Nat)
    (hb : ∀ i, nib state i ≤ 1) (n : Nat) (hn : STRIDE padding width + 2 ≤ n) :
    nib (count_neighbors padding width state) n
      = nib state (n - STRIDE padding width - 1) + nib state (n - STRIDE padding width)
        + nib state (n - STRIDE padding width + 1)
        + nib state (n - 1) + nib state n + nib state (n + 1)
        + nib state (n + STRIDE padding width - 1) + nib state (n + STRIDE padding width)
        + nib state (n + STRIDE padding width + 1)
    ∧ nib (count_neighbors padding width state) n ≤ 9 :=
  count_neighbors_local padding width state hb n hn

/-- Witness for `count_neighbors_is_local_sum`: the two-nibble state `0x11`. -/
theorem count_neighbors_is_local_sum_witness :
    (nib (count_neighbors 4 2 17) 8
      = nib 17 (8 - STRIDE 4 2 - 1) + nib 17 (8 - STRIDE 4 2)
        + nib 17 (8 - STRIDE 4 2 + 1)
        + nib 17 (8 - 1) + nib 17 8 + nib 17 (8 + 1)
        + nib 17 (8 + STRIDE 4 2 - 1) + nib 17 (8 + STRIDE 4 2)
        + nib 17 (8 + STRIDE 4 2 + 1)
      ∧ nib (count_neighbors 4 2 17) 8 ≤ 9) :=
  count_neighbors_is_local_sum 4 2 17
    (by
      intro i
      match i with
      | 0 => decide
      | 1 => decide
      | (j + 2) =>
        have hz := nib_eq_zero_of_lt (by norm_num : (17 : Nat) < 16 ^ 2) (by omega : 2 ≤ j + 2)
        omega)
    8 (by decide)

/-! ### Theorems: the clamp invariant (claim C2) -/

/-- Every worker state (seed or any later tick) is of the form `x &&& MASK_CANVAS`. -/
theorem state_at_is_masked (drylife : Bool) (padding width height : Nat)
    (seed : List Nat) (tops bots : Nat → List Nat) (t : Nat) :
    ∃ x, state_at drylife padding width height seed tops bots t
      = x &&& MASK_CANVAS padding width height := by
  cases t with
  | zero => exact ⟨_, rfl⟩
  | succ s => exact ⟨_, rfl⟩

/-- Claim C2: at worker start and after every tick's final clamp, every nibble
of the working state outside `MASK_CANVAS` is zero. -/
theorem padding_stays_zero (drylife : Bool) (padding width height : Nat)
    (seed : List Nat) (tops bots : Nat → List Nat) (t n : Nat)
    (hm : nib (MASK_CANVAS padding width height) n = 0) :
    nib (state_at drylife padding width height seed tops bots t) n = 0 := by
  obtain ⟨x, hx⟩ := state_at_is_masked drylife padding width height seed tops bots t
  rw [hx, nib_land, hm, Nat.and_zero]

/-- Witness for `padding_stays_zero` at a concrete configuration (nibble 0 sits
below the bias region, so it is outside the canvas mask). -/
theorem padding_stays_zero_witness :
    nib (MASK_CANVAS 16 16 2) 0 = 0
    ∧ nib (state_at true 16 16 2 (List.replicate 32 255)
        (fun _ => List.replicate 18 255) (fun _ => List.replicate 18 255) 1) 0 = 0 :=
  ⟨by decide,
    padding_stays_zero true 16 16 2 (List.replicate 32 255)
      (fun _ => List.replicate 18 255) (fun _ => List.replicate 18 255) 1 0 (by decide)⟩

/-! ### Theorems: halo incorporation (claim C3) -/

/-- Counterexample to claim C3 as stated: the kernel does not shift the
top-halo bytes left by BIAS nibbles; it ORs them in at offset 0. -/
theorem top_halo_shift_claim_false :
    vertical_wrap 16 16 2 0 [1] [] ≠ claimed_vertical_wrap 16 16 2 0 [1] [] := by
  decide

/-- Amended claim C3: in the halo-incorporation step the bottom-halo bytes are
OR'd in shifted left by `WRAPSHIFT + BIAS` bits (`S*height + S + 2` nibbles)
and the top-halo bytes are OR'd in with no shift (nibble offset 0); the
alignment of the top halo comes from the extra leading byte of the per-tick
messages, not from a shift. -/
theorem vertical_wrap_nib (padding width height : Nat) (state : Nat)
    (top bot : List Nat) (htop : ∀ b ∈ top, b < 256) (hbot : ∀ b ∈ bot, b < 256)
    (n : Nat) :
    nib (vertical_wrap padding width height state top bot) n
      = nib state n ||| (byteNib top n
        ||| (if n < STRIDE padding width * height + STRIDE padding width + 2 then 0
          else byteNib bot (n - (STRIDE padding width * height + STRIDE padding width + 2)))) := by
  unfold vertical_wrap
  have hshift : WRAPSHIFT padding width height + BIAS padding width
      = 4 * (STRIDE padding width * height + STRIDE padding width + 2) := by
    unfold WRAPSHIFT BIAS
    ring
  rw [nib_lor, nib_lor, hshift, nib_shiftLeft, nib_fromBytesLE htop]
  congr 1
  congr 1
  by_cases h : n < STRIDE padding width * height + STRIDE padding width + 2
  · rw [if_pos h, if_pos h]
  · rw [if_neg h, if_neg h, nib_fromBytesLE hbot]

/-- Witness for `vertical_wrap_nib`: the single top byte `0x21` lands at
nibbles 0 and 1 of the state. -/
theorem vertical_wrap_nib_witness :
    nib (vertical_wrap 16 16 2 0 [33] []) 0
      = nib 0 0 ||| (byteNib [33] 0 ||| (if (0 : Nat) < 16 * 2 + 16 + 2 then 0
          else byteNib [] (0 - (16 * 2 + 16 + 2)))) ∨
    nib (vertical_wrap 16 16 2 0 [33] []) 0
      = nib 0 0 ||| (byteNib [33] 0
        ||| (if (0 : Nat) < STRIDE 16 16 * 2 + STRIDE 16 16 + 2 then 0
          else byteNib [] (0 - (STRIDE 16 16 * 2 + STRIDE 16 16 + 2)))) :=
  Or.inr (vertical_wrap_nib 16 16 2 0 [33] [] (by decide) (by decide) 0)

/-! ### Theorems: halo message sizes (claim C4) -/

/-- Counterexample to claim C4 as stated: at width 20 the per-tick top halo
message has `STRIDE/2 + 1 = 19` bytes, not `STRIDE/2 = 18`. -/
theorem halo_message_size_claim_false :
    (halo_top_message 16 20 (packed_state_at true 16 20 2 (List.replicate 36 0)
        (fun _ => []) (fun _ => []) 1)).length ≠ STRIDE 16 20 / 2 := by
  decide

/-- Amended claim C4: the pre-sent seed rows are `STRIDE/2` bytes, while every
per-tick halo message is `STRIDE/2 + 1` bytes (strips of height at least 2). -/
theorem halo_message_lengths (drylife : Bool) (width height : Nat) (hh : 2 ≤ height)
    (seed : List Nat) (hseed : seed.length = STATE_BYTE_LENGTH WIDTH_PADDING width height)
    (tops bots : Nat → List Nat) (t : Nat) :
    (halo_top_message WIDTH_PADDING width
        (packed_state_at drylife WIDTH_PADDING width height seed tops bots t)).length
      = STRIDE WIDTH_PADDING width / 2 + 1
    ∧ (halo_bottom_message WIDTH_PADDING width
        (packed_state_at drylife WIDTH_PADDING width height seed tops bots t)).length
      = STRIDE WIDTH_PADDING width / 2 + 1
    ∧ (seed_top_row WIDTH_PADDING width seed).length = STRIDE WIDTH_PADDING width / 2
    ∧ (seed_bottom_row WIDTH_PADDING width seed).length = STRIDE WIDTH_PADDING width / 2 := by
  have hlen : (packed_state_at drylife WIDTH_PADDING width height seed tops bots t).length
      = STATE_BYTE_LENGTH WIDTH_PADDING width height := by
    unfold packed_state_at
    exact length_toBytesLE _ _
  have hS : STRIDE WIDTH_PADDING width = width + 16 := rfl
  have hSBL : STATE_BYTE_LENGTH WIDTH_PADDING width height
      = (width + 16) * height / 2 := rfl
  have hbig : STRIDE WIDTH_PADDING width / 2 + 1
      ≤ STATE_BYTE_LENGTH WIDTH_PADDING width height := by
    rw [hS, hSBL]
    have h2 : (width + 16) * 2 ≤ (width + 16) * height := Nat.mul_le_mul_left _ hh
    omega
  refine ⟨?_, ?_, ?_, ?_⟩
  · unfold halo_top_message
    rw [List.length_take, hlen]
    omega
  · unfold halo_bottom_message
    rw [List.length_drop, hlen]
    omega
  · unfold seed_top_row
    rw [List.length_take, hseed]
    omega
  · unfold seed_bottom_row
    rw [List.length_drop, hseed]
    omega

/-- Witness for `halo_message_lengths` at width 20, height 2. -/
theorem halo_message_lengths_witness :
    (halo_top_message 16 20 (packed_state_at true 16 20 2 (List.replicate 36 0)
        (fun _ => []) (fun _ => []) 1)).length = 19 :=
  (halo_message_lengths true 20 2 (by decide) (List.replicate 36 0) (by decide)
    (fun _ => []) (fun _ => []) 1).1

/-! ### Theorems: frame message size (claim C5) -/

/-- Counterexample to claim C5 as stated: with the INDEX4LSB workaround enabled
(as in the source) the frame message is `STATE_BYTE_LENGTH - 7` bytes, not
`STATE_BYTE_LENGTH`. -/
theorem frame_message_size_claim_false :
    (frame_message INDEX4LSB_WORKAROUND WIDTH_PADDING
        (packed_state_at true 16 16 2 (List.replicate 32 0)
          (fun _ => []) (fun _ => []) 1)).length
      ≠ STATE_BYTE_LENGTH 16 16 2 := by
  decide

/-- Amended claim C5: the frame message is the full `STATE_BYTE_LENGTH` packed
strip when the workaround is disabled, but `STATE_BYTE_LENGTH - (padding/2 - 1)`
bytes (the Python slice `[-WIDTH_PADDING//2::-1]`) when it is enabled. -/
theorem frame_message_length (width height : Nat) (packed : List Nat)
    (hp : packed.length = STATE_BYTE_LENGTH WIDTH_PADDING width height) :
    (frame_message true WIDTH_PADDING packed).length
      = STATE_BYTE_LENGTH WIDTH_PADDING width height - 7
    ∧ (frame_message false WIDTH_PADDING packed).length
      = STATE_BYTE_LENGTH WIDTH_PADDING width height := by
  constructor
  · unfold frame_message
    rw [if_pos rfl, List.length_reverse, List.length_take, hp]
    have h7 : WIDTH_PADDING / 2 - 1 = 7 := by decide
    rw [h7]
    omega
  · unfold frame_message
    rw [if_neg (by decide), hp]

/-- Witness for `frame_message_length` at width 16, height 2. -/
theorem frame_message_length_witness :
    (frame_message true WIDTH_PADDING (packed_state_at true 16 16 2 (List.replicate 32 0)
        (fun _ => []) (fun _ => []) 1)).length = STATE_BYTE_LENGTH 16 16 2 - 7 :=
  (frame_message_length 16 2 _ (length_toBytesLE _ _)).1

/-! ### Theorems: message nibbles are 0 or 1 (claim C7) -/

/-- Counterexample to claim C7 as stated: the pre-sent seed halo rows are raw
`os.urandom` bytes; a seed byte `0x77` puts nibble value 7 on the halo channel. -/
theorem seed_halo_binary_claim_false :
    ¬ ((seed_top_row 16 16 (List.replicate 32 119)).all
        fun b => decide (b % 16 ≤ 1) && decide (b / 16 ≤ 1)) := by
  decide

/-- Bytes of the canvas mask byte pattern are `0x11` or `0x00`. -/
theorem canvas_mask_bytes_binary (padding width height : Nat) :
    ∀ b ∈ repeatList
      (List.replicate (width / 2) 0x11 ++ List.replicate (padding / 2) 0x00) height,
      b = 17 ∨ b = 0 := by
  intro b hb
  have hrow := mem_repeatList hb
  rcases List.mem_append.mp hrow with h1 | h2
  · left; exact List.eq_of_mem_replicate h1
  · right; exact List.eq_of_mem_replicate h2

theorem byteNib_le_one_of_binary {l : List Nat} (hl : ∀ b ∈ l, b = 17 ∨ b = 0)
    (k : Nat) : byteNib l k ≤ 1 := by
  unfold byteNib
  rcases getD_zero_or_mem l (k / 2) with h | h
  · rw [h, nib_zero]
    exact Nat.zero_le 1
  · rcases hl _ h with h17 | h0
    · rw [h17]
      rcases Nat.mod_two_eq_zero_or_one k with hr | hr <;> rw [hr] <;> decide
    · rw [h0, nib_zero]
      exact Nat.zero_le 1

/-- Every nibble of the canvas mask is 0 or 1. -/
theorem nib_mask_canvas_le_one (padding width height n : Nat) :
    nib (MASK_CANVAS padding width height) n ≤ 1 := by
  unfold MASK_CANVAS
  have hb : BIAS padding width = 4 * (STRIDE padding width + 2) := by
    unfold BIAS
    ring
  rw [hb, nib_shiftLeft]
  by_cases h : n < STRIDE padding width + 2
  · rw [if_pos h]
    omega
  · rw [if_neg h]
    rw [nib_fromBytesLE (fun b hbm => by
      rcases canvas_mask_bytes_binary padding width height b hbm with h1 | h1 <;> omega)]
    exact byteNib_le_one_of_binary (canvas_mask_bytes_binary padding width height) _

/-- Every nibble of every worker state is 0 or 1. -/
theorem nib_state_at_le_one (drylife : Bool) (padding width height : Nat)
    (seed : List Nat) (tops bots : Nat → List Nat) (t n : Nat) :
    nib (state_at drylife padding width height seed tops bots t) n ≤ 1 := by
  obtain ⟨x, hx⟩ := state_at_is_masked drylife padding width height seed tops bots t
  rw [hx, nib_land]
  calc nib x n &&& nib (MASK_CANVAS padding width height) n
      ≤ nib (MASK_CANVAS padding width height) n := Nat.and_le_right
    _ ≤ 1 := nib_mask_canvas_le_one padding width height n

/-- Bytes serialised from a value with 0/1 nibbles have 0/1 nibbles. -/
theorem toBytesLE_binary {v : Nat} (h : ∀ n, nib v n ≤ 1) (len : Nat) :
    ∀ b ∈ toBytesLE len v, b % 16 ≤ 1 ∧ b / 16 ≤ 1 := by
  intro b hb
  unfold toBytesLE at hb
  obtain ⟨i, _, rfl⟩ := List.mem_map.mp hb
  constructor
  · have hq : (256 : Nat) ^ i = 16 ^ (2 * i) := by
      rw [pow_mul]
      norm_num
    have := h (2 * i)
    unfold nib at this
    rw [Nat.mod_mod_of_dvd _ (by norm_num : (16 : Nat) ∣ 256), hq]
    exact this
  · have hm : ∀ m : Nat, m % 256 / 16 = m / 16 % 16 := by
      intro m
      rw [(by norm_num : (256 : Nat) = 16 * 16), Nat.mod_mul_right_div_self]
    have hq : (256 : Nat) ^ i * 16 = 16 ^ (2 * i + 1) := by
      rw [pow_succ, pow_mul]
      norm_num
    have := h (2 * i + 1)
    unfold nib at this
    rw [hm, Nat.div_div_eq_div_mul, hq]
    exact this

/-- Nibbles of the packed value `state >> BIAS` are 0 or 1. -/
theorem nib_packed_value_le_one (drylife : Bool) (padding width height : Nat)
    (seed : List Nat) (tops bots : Nat → List Nat) (t n : Nat) :
    nib (state_at drylife padding width height seed tops bots t
      >>> BIAS padding width) n ≤ 1 := by
  have hb : BIAS padding width = 4 * (STRIDE padding width + 2) := by
    unfold BIAS
    ring
  rw [hb, nib_shiftRight]
  exact nib_state_at_le_one drylife padding width height seed tops bots t _

/-- Amended claim C7: every per-tick emission of the worker (the two halo
messages and the frame message, in either workaround mode) carries only nibble
values 0 and 1.  (The initial seed rows are raw urandom bytes and are exempt.) -/
theorem per_tick_messages_binary (drylife workaround : Bool) (padding width height : Nat)
    (seed : List Nat) (tops bots : Nat → List Nat) (t : Nat) (b : Nat)
    (hb : b ∈ halo_top_message padding width
        (packed_state_at drylife padding width height seed tops bots t)
      ∨ b ∈ halo_bottom_message padding width
        (packed_state_at drylife padding width height seed tops bots t)
      ∨ b ∈ frame_message workaround padding
        (packed_state_at drylife padding width height seed tops bots t)) :
    b % 16 ≤ 1 ∧ b / 16 ≤ 1 := by
  have hmem : b ∈ packed_state_at drylife padding width height seed tops bots t := by
    rcases hb with h | h | h
    · exact List.take_subset _ _ h
    · exact List.drop_subset _ _ h
    · unfold frame_message at h
      cases workaround with
      | false => simpa using h
      | true =>
        simp only [if_pos rfl] at h
        exact List.take_subset _ _ (List.mem_reverse.mp h)
  unfold packed_state_at at hmem
  exact toBytesLE_binary
    (nib_packed_value_le_one drylife padding width height seed tops bots t) _ b hmem

/-- Witness for `per_tick_messages_binary`: a byte of the tick-1 top message. -/
theorem per_tick_messages_binary_witness :
    ((packed_state_at true 16 16 2 (List.replicate 32 255)
        (fun _ => List.replicate 18 255) (fun _ => List.replicate 18 255) 1).getD 0 0) % 16 ≤ 1
    ∧ ((packed_state_at true 16 16 2 (List.replicate 32 255)
        (fun _ => List.replicate 18 255) (fun _ => List.replicate 18 255) 1).getD 0 0) / 16 ≤ 1 :=
  per_tick_messages_binary true true 16 16 2 (List.replicate 32 255)
    (fun _ => List.replicate 18 255) (fun _ => List.replicate 18 255) 1 _
    (Or.inl (by decide))

/-! ### Theorems: strip height partition (claim C8) -/

/-- Claim C8: with `(q, R) = divmod(height, K)` the partition has `K` strips,
the first `K - R` of height `q`, the last `R` of height `q + 1`, summing to
`height`. -/
theorem section_heights_spec (height num_procs : Nat) (h : 1 ≤ num_procs) :
    (section_heights height num_procs).length = num_procs
    ∧ (section_heights height num_procs).take (num_procs - height % num_procs)
        = List.replicate (num_procs - height % num_procs) (height / num_procs)
    ∧ (section_heights height num_procs).drop (num_procs - height % num_procs)
        = List.replicate (height % num_procs) (height / num_procs + 1)
    ∧ (section_heights height num_procs).sum = height := by
  have hmod : height % num_procs < num_procs := Nat.mod_lt _ h
  unfold section_heights
  refine ⟨?_, ?_, ?_, ?_⟩
  · rw [List.length_append, List.length_replicate, List.length_replicate]
    omega
  · exact List.take_left' (List.length_replicate _ _)
  · exact List.drop_left' (List.length_replicate _ _)
  · rw [List.sum_append, List.sum_replicate, List.sum_replicate, smul_eq_mul, smul_eq_mul]
    obtain ⟨a, ha⟩ : ∃ a, num_procs = a + height % num_procs :=
      ⟨num_procs - height % num_procs, by omega⟩
    have hsub : num_procs - height % num_procs = a := by omega
    have hdm := Nat.div_add_mod height num_procs
    rw [hsub]
    calc a * (height / num_procs) + height % num_procs * (height / num_procs + 1)
        = (a + height % num_procs) * (height / num_procs) + height % num_procs := by ring
      _ = num_procs * (height / num_procs) + height % num_procs := by rw [← ha]
      _ = height := hdm

/-- Witness for `section_heights_spec` at height 10, 4 workers. -/
theorem section_heights_spec_witness :
    (section_heights 10 4).length = 4 ∧ (section_heights 10 4).sum = 10 :=
  ⟨(section_heights_spec 10 4 (by decide)).1, (section_heights_spec 10 4 (by decide)).2.2.2⟩

/-! ### Theorems: configuration error behaviour (claim C9) -/

/-- Counterexample to claim C9 as stated: with `frameskip = 0` (and a valid
worker count) `main` reaches the point of starting workers without reporting
any error - the geometry computation succeeds. -/
theorem frameskip_checked_before_spawn_false :
    main_section_heights { frameskip := 0, height := 16, num_procs := 4 : LifeConfig }
      = Except.ok [4, 4, 4, 4] := by
  rfl

/-- Amended claim C9: `num_procs = 0` does abort `main` (with an uncaught
`ZeroDivisionError` from `divmod`) before any worker is started, but
`frameskip < 1` is not checked before spawning: each worker fails with
`ZeroDivisionError` at the end of its first tick, at `framectr % frameskip`. -/
theorem config_error_behaviour (cfg : LifeConfig) :
    (cfg.num_procs = 0 →
      main_section_heights cfg = Except.error "ZeroDivisionError")
    ∧ (cfg.frameskip = 0 → ∀ pad ht st fc top bot,
      worker_tick cfg pad ht st fc top bot = Except.error "ZeroDivisionError") := by
  constructor
  · intro h0
    unfold main_section_heights py_divmod
    rw [h0]
    rfl
  · intro h0 pad ht st fc top bot
    unfold worker_tick py_mod
    rw [h0]
    rfl

/-- Witness for `config_error_behaviour` with both invalid values. -/
theorem config_error_behaviour_witness :
    main_section_heights { num_procs := 0, frameskip := 0, width := 4, height := 4 : LifeConfig }
      = Except.error "ZeroDivisionError"
    ∧ worker_tick { num_procs := 0, frameskip := 0, width := 4, height := 4 : LifeConfig }
        16 2 0 0 [] [] = Except.error "ZeroDivisionError" :=
  ⟨(config_error_behaviour _).1 rfl, (config_error_behaviour _).2 rfl 16 2 0 0 [] []⟩

/-! ### Theorems: the packed serialisation always fits (claim C10) -/

/-- The canvas mask is below `256^STATE_BYTE_LENGTH` shifted by `BIAS`. -/
theorem mask_canvas_lt (width height : Nat) (hw : width % 2 = 0) :
    MASK_CANVAS WIDTH_PADDING width height
      < 256 ^ STATE_BYTE_LENGTH WIDTH_PADDING width height * 2 ^ BIAS WIDTH_PADDING width := by
  obtain ⟨m, rfl⟩ : ∃ m, width = 2 * m := ⟨width / 2, by omega⟩
  unfold MASK_CANVAS
  rw [Nat.shiftLeft_eq]
  apply Nat.mul_lt_mul_of_lt_of_le _ (le_refl _) (by positivity)
  have hlen : (repeatList
      (List.replicate (2 * m / 2) 0x11 ++ List.replicate (WIDTH_PADDING / 2) 0x00)
      height).length = height * (m + 8) := by
    rw [length_repeatList, List.length_append, List.length_replicate, List.length_replicate]
    congr 1
    unfold WIDTH_PADDING
    omega
  have hlt := fromBytesLE_lt (l := repeatList
      (List.replicate (2 * m / 2) 0x11 ++ List.replicate (WIDTH_PADDING / 2) 0x00) height)
    (fun b hbm => by
      rcases canvas_mask_bytes_binary WIDTH_PADDING (2 * m) height b hbm with h1 | h1 <;> omega)
  rw [hlen] at hlt
  have hsbl : STATE_BYTE_LENGTH WIDTH_PADDING (2 * m) height = height * (m + 8) := by
    unfold STATE_BYTE_LENGTH STRIDE WIDTH_PADDING
    have : (2 * m + 16) * height = 2 * (height * (m + 8)) := by ring
    rw [this]
    omega
  rw [hsbl]
  exact hlt

/-- Claim C10: after every clamp the packed value `state >> BIAS` is below
`256^STATE_BYTE_LENGTH`, so the little-endian serialisation (line 172) never
takes `int.to_bytes`'s overflow branch. -/
theorem packed_state_fits (drylife : Bool) (width height : Nat) (hw : width % 2 = 0)
    (seed : List Nat) (tops bots : Nat → List Nat) (t : Nat) :
    state_at drylife WIDTH_PADDING width height seed tops bots t
        >>> BIAS WIDTH_PADDING width
      < 256 ^ STATE_BYTE_LENGTH WIDTH_PADDING width height
    ∧ (pyToBytes (STATE_BYTE_LENGTH WIDTH_PADDING width height)
        (state_at drylife WIDTH_PADDING width height seed tops bots t
          >>> BIAS WIDTH_PADDING width)).isSome = true := by
  have hlt : state_at drylife WIDTH_PADDING width height seed tops bots t
      >>> BIAS WIDTH_PADDING width < 256 ^ STATE_BYTE_LENGTH WIDTH_PADDING width height := by
    obtain ⟨x, hx⟩ := state_at_is_masked drylife WIDTH_PADDING width height seed tops bots t
    have hle : state_at drylife WIDTH_PADDING width height seed tops bots t
        ≤ MASK_CANVAS WIDTH_PADDING width height := hx ▸ Nat.and_le_right
    rw [Nat.shiftRight_eq_div_pow]
    rw [Nat.div_lt_iff_lt_mul (by positivity)]
    calc state_at drylife WIDTH_PADDING width height seed tops bots t
        ≤ MASK_CANVAS WIDTH_PADDING width height := hle
      _ < 256 ^ STATE_BYTE_LENGTH WIDTH_PADDING width height * 2 ^ BIAS WIDTH_PADDING width :=
          mask_canvas_lt width height hw
  refine ⟨hlt, ?_⟩
  unfold pyToBytes
  rw [if_pos hlt]
  rfl

/-- Witness for `packed_state_fits` at a concrete configuration. -/
theorem packed_state_fits_witness :
    state_at true WIDTH_PADDING 16 2 (List.replicate 32 255)
        (fun _ => List.replicate 18 255) (fun _ => List.replicate 18 255) 1
        >>> BIAS WIDTH_PADDING 16
      < 256 ^ STATE_BYTE_LENGTH WIDTH_PADDING 16 2 :=
  (packed_state_fits true 16 2 (by decide) (List.replicate 32 255)
    (fun _ => List.replicate 18 255) (fun _ => List.replicate 18 255) 1).1

/-! ### Theorems: Bool-valued nibble patterns and mask characterisations -/

theorem cond_or_cond (a b : Bool) :
    ((cond a 1 0 : Nat) ||| cond b 1 0) = cond (a || b) 1 0 := by
  cases a <;> cases b <;> decide

theorem cond_and_cond (a b : Bool) :
    ((cond a 1 0 : Nat) &&& cond b 1 0) = cond (a && b) 1 0 := by
  cases a <;> cases b <;> decide

theorem cond_le_one (a : Bool) : (cond a 1 0 : Nat) ≤ 1 := by
  cases a <;> decide

theorem testBit_zero_cond (a : Bool) : (cond a 1 0 : Nat).testBit 0 = a := by
  cases a <;> decide

/-- Halving a residue: for even `s`, `(m / 2) % (s / 2) = (m % s) / 2`. -/
theorem half_mod (m s : Nat) (hs : s % 2 = 0) (hpos : 0 < s) :
    m / 2 % (s / 2) = m % s / 2 := by
  obtain ⟨u, rfl⟩ : ∃ u, s = 2 * u := ⟨s / 2, by omega⟩
  have hu : 0 < u := by omega
  have hdm := Nat.div_add_mod m (2 * u)
  have hr : m % (2 * u) < 2 * u := Nat.mod_lt _ (by omega)
  have hflat : 2 * u * (m / (2 * u)) = 2 * (u * (m / (2 * u))) := by ring
  have hm2 : m = 2 * (u * (m / (2 * u))) + m % (2 * u) := by omega
  have h1 : m / 2 = u * (m / (2 * u)) + m % (2 * u) / 2 := by
    conv_lhs => rw [hm2]
    rw [Nat.mul_add_div (by norm_num)]
  have h2 : 2 * u / 2 = u := by omega
  rw [h1, h2, Nat.add_comm, Nat.add_mul_mod_self_left]
  exact Nat.mod_eq_of_lt (by omega)

/-- Generic evaluation of a repeated-row mask built like the source masks. -/
theorem nib_mask_pattern (row : List Nat) (L R sh n : Nat) (hrow : row.length = L)
    (hb : ∀ b ∈ row, b < 256) :
    nib (fromBytesLE (repeatList row R) <<< (4 * sh)) n
      = if sh ≤ n ∧ (n - sh) / 2 < R * L
        then nib (row.getD ((n - sh) / 2 % L) 0) ((n - sh) % 2) else 0 := by
  rw [nib_shiftLeft]
  by_cases h1 : n < sh
  · rw [if_pos h1, if_neg (by omega)]
  · rw [if_neg h1]
    rw [nib_fromBytesLE (fun b hbm => hb b (mem_repeatList hbm))]
    unfold byteNib
    rw [getD_repeatList hrow]
    by_cases h2 : (n - sh) / 2 < R * L
    · rw [if_pos h2, if_pos ⟨by omega, h2⟩]
    · rw [if_neg h2, if_neg (fun hc => h2 hc.2), nib_zero]

theorem two_sbl (w h : Nat) (hw : w % 2 = 0) :
    2 * STATE_BYTE_LENGTH 4 w h = (w + 4) * h := by
  obtain ⟨m, rfl⟩ : ∃ m, w = 2 * m := ⟨w / 2, by omega⟩
  unfold STATE_BYTE_LENGTH STRIDE
  have hx : (2 * m + 4) * h = 2 * ((m + 2) * h) := by ring
  rw [hx]
  omega

/-- `MASK_1` (padding 4) has nibble 1 exactly on the `S*height` block. -/
theorem nib_mask_1 (w h n : Nat) (hw : w % 2 = 0) :
    nib (MASK_1 4 w h) n = cond (m1conj w h n) 1 0 := by
  unfold MASK_1 m1conj
  have hbias : BIAS 4 w = 4 * ((w + 4) + 2) := by
    unfold BIAS STRIDE
    ring
  rw [hbias, nib_shiftLeft]
  by_cases h1 : n < (w + 4) + 2
  · rw [if_pos h1]
    have hd : decide ((w + 4) + 2 ≤ n) = false := by
      simp
      omega
    rw [hd, Bool.false_and]
    rfl
  · rw [if_neg h1]
    rw [nib_fromBytesLE (fun b hbm => by rw [List.eq_of_mem_replicate hbm]; norm_num)]
    unfold byteNib
    rw [getD_replicate_bytes]
    have hsplit : (n - ((w + 4) + 2)) / 2 < STATE_BYTE_LENGTH 4 w h
        ↔ n - ((w + 4) + 2) < (w + 4) * h := by
      have := two_sbl w h hw
      omega
    have hd1 : decide ((w + 4) + 2 ≤ n) = true := by
      simp
      omega
    by_cases h2 : (n - ((w + 4) + 2)) / 2 < STATE_BYTE_LENGTH 4 w h
    · rw [if_pos h2, hd1]
      have hd2 : decide (n - ((w + 4) + 2) < (w + 4) * h) = true := by
        simp [hsplit.mp h2]
      rw [hd2]
      rcases Nat.mod_two_eq_zero_or_one (n - ((w + 4) + 2)) with hp | hp <;> rw [hp] <;> decide
    · rw [if_neg h2, hd1]
      have hd2 : decide (n - ((w + 4) + 2) < (w + 4) * h) = false := by
        simp
        omega
      rw [hd2, nib_zero]
      decide

/-- `MASK_CANVAS` (padding 4) has nibble 1 exactly on the payload columns. -/
theorem nib_mask_canvas4 (w h n : Nat) (hw : w % 2 = 0) :
    nib (MASK_CANVAS 4 w h) n = cond (canvconj w h n) 1 0 := by
  unfold MASK_CANVAS canvconj m1conj
  have hbias : BIAS 4 w = 4 * ((w + 4) + 2) := by
    unfold BIAS STRIDE
    ring
  obtain ⟨u, hwu⟩ : ∃ u, w = 2 * u := ⟨w / 2, by omega⟩
  have hrowlen : (List.replicate (w / 2) 0x11 ++ List.replicate ((4 : Nat) / 2) 0x00).length
      = (w + 4) / 2 := by
    rw [List.length_append, List.length_replicate, List.length_replicate]
    omega
  have hrowb : ∀ b ∈ List.replicate (w / 2) 0x11 ++ List.replicate ((4 : Nat) / 2) 0x00,
      b < 256 := by
    intro b hbm
    rcases List.mem_append.mp hbm with hx | hx <;> rw [List.eq_of_mem_replicate hx] <;> norm_num
  rw [hbias, nib_mask_pattern _ ((w + 4) / 2) h _ n hrowlen hrowb]
  set m := n - ((w + 4) + 2) with hm
  have hS2 : ((w + 4) : Nat) % 2 = 0 := by omega
  have hSpos : 0 < w + 4 := by omega
  have hhalf := half_mod m (w + 4) hS2 hSpos
  have hmS : m % (w + 4) < w + 4 := Nat.mod_lt _ hSpos
  have hcond1 : m / 2 < h * ((w + 4) / 2) ↔ m < (w + 4) * h := by
    have hx : 2 * (h * ((w + 4) / 2)) = (w + 4) * h := by
      subst hwu
      have : (2 * u + 4) / 2 = u + 2 := by omega
      rw [this]
      ring
    omega
  by_cases hc : (w + 4) + 2 ≤ n ∧ m / 2 < h * ((w + 4) / 2)
  · rw [if_pos hc]
    rw [getD_append_bytes, List.length_replicate, getD_replicate_bytes]
    have hd1 : decide ((w + 4) + 2 ≤ n) = true := by simp [hc.1]
    have hd2 : decide (m < (w + 4) * h) = true := by simp [hcond1.mp hc.2]
    rw [hd1, hd2]
    by_cases hcol : m % (w + 4) < w
    · have hcol2 : m / 2 % ((w + 4) / 2) < w / 2 := by
        rw [hhalf]
        omega
      rw [if_pos hcol2, if_pos hcol2]
      have hd3 : decide (m % (w + 4) < w) = true := by simp [hcol]
      rw [hd3]
      rcases Nat.mod_two_eq_zero_or_one m with hp | hp <;> rw [hp] <;> decide
    · have hcol2 : ¬ (m / 2 % ((w + 4) / 2) < w / 2) := by
        rw [hhalf]
        omega
      rw [if_neg hcol2]
      have hd3 : decide (m % (w + 4) < w) = false := by simp [hcol]
      rw [hd3]
      have hz : (List.replicate ((4 : Nat) / 2) 0x00).getD
          (m / 2 % ((w + 4) / 2) - w / 2) 0 = 0 := by
        rw [getD_replicate_bytes]
        by_cases hq : m / 2 % ((w + 4) / 2) - w / 2 < 4 / 2 <;> simp [hq]
      rw [hz, nib_zero]
      decide
  · rw [if_neg hc]
    rcases not_and_or.mp hc with hna | hnb
    · have hd1 : decide ((w + 4) + 2 ≤ n) = false := by
        simp
        omega
      rw [hd1]
      simp
    · have hd2 : decide (m < (w + 4) * h) = false := by
        simp
        omega
      rw [hd2]
      simp

theorem getD_zeros {l : List Nat} (hl : ∀ b ∈ l, b = 0) (i : Nat) : l.getD i 0 = 0 := by
  rcases getD_zero_or_mem l i with h | h
  · exact h
  · exact hl _ h

theorem getD_wrapL_row (w r : Nat) :
    (List.replicate ((4 : Nat) / 2 / 2) 0x11 ++ List.replicate ((w - 4 / 2) / 2) 0x00
      ++ List.replicate ((4 : Nat) / 2) 0x00).getD r 0 = if r = 0 then 17 else 0 := by
  have hassoc : (List.replicate ((4 : Nat) / 2 / 2) 0x11
      ++ List.replicate ((w - 4 / 2) / 2) 0x00 ++ List.replicate ((4 : Nat) / 2) 0x00)
      = 17 :: (List.replicate ((w - 4 / 2) / 2) 0x00 ++ List.replicate ((4 : Nat) / 2) 0x00) := by
    rw [List.append_assoc]
    rfl
  rw [hassoc]
  match r with
  | 0 => rw [List.getD_cons_zero, if_pos rfl]
  | (r + 1) =>
    rw [List.getD_cons_succ, if_neg (by omega)]
    apply getD_zeros
    intro b hbm
    rcases List.mem_append.mp hbm with hx | hx <;> exact List.eq_of_mem_replicate hx

theorem getD_wrapR_row (w r : Nat) :
    (List.replicate ((w - 4 / 2) / 2) 0x00 ++ List.replicate ((4 : Nat) / 2 / 2) 0x11
      ++ List.replicate ((4 : Nat) / 2) 0x00).getD r 0
      = if r = (w - 4 / 2) / 2 then 17 else 0 := by
  have hassoc : (List.replicate ((w - 4 / 2) / 2) 0x00
      ++ List.replicate ((4 : Nat) / 2 / 2) 0x11 ++ List.replicate ((4 : Nat) / 2) 0x00)
      = List.replicate ((w - 4 / 2) / 2) 0x00
        ++ (17 :: List.replicate ((4 : Nat) / 2) 0x00) := by
    rw [List.append_assoc]
    rfl
  rw [hassoc, getD_append_bytes, List.length_replicate]
  by_cases h : r < (w - 4 / 2) / 2
  · rw [if_pos h, getD_replicate_bytes, if_pos h, if_neg (by omega)]
  · rw [if_neg h]
    have hd : r - (w - 4 / 2) / 2 = 0 ∨ ∃ d, r - (w - 4 / 2) / 2 = d + 1 := by
      rcases Nat.eq_zero_or_pos (r - (w - 4 / 2) / 2) with h0 | h0
      · exact Or.inl h0
      · exact Or.inr ⟨r - (w - 4 / 2) / 2 - 1, by omega⟩
    rcases hd with h0 | ⟨d, hd1⟩
    · rw [h0, List.getD_cons_zero, if_pos (by omega)]
    · rw [hd1, List.getD_cons_succ, if_neg (by omega), getD_replicate_bytes]
      by_cases hq : d < 4 / 2 <;> simp [hq]

/-- `MASK_WRAP_LEFT` (padding 4) has nibble 1 exactly on `mlconj`. -/
theorem nib_mask_wrap_left4 (w h n : Nat) (hw : w % 2 = 0) (hw2 : 2 ≤ w) :
    nib (MASK_WRAP_LEFT 4 w h) n = cond (mlconj w h n) 1 0 := by
  unfold MASK_WRAP_LEFT mlconj
  obtain ⟨u, hwu⟩ : ∃ u, w = 2 * u := ⟨w / 2, by omega⟩
  have hrowlen : (List.replicate ((4 : Nat) / 2 / 2) 0x11
      ++ List.replicate ((w - 4 / 2) / 2) 0x00 ++ List.replicate ((4 : Nat) / 2) 0x00).length
      = (w + 4) / 2 := by
    simp only [List.length_append, List.length_replicate]
    omega
  have hrowb : ∀ b ∈ List.replicate ((4 : Nat) / 2 / 2) 0x11
      ++ List.replicate ((w - 4 / 2) / 2) 0x00 ++ List.replicate ((4 : Nat) / 2) 0x00,
      b < 256 := by
    intro b hbm
    rcases List.mem_append.mp hbm with hx | hx
    · rcases List.mem_append.mp hx with hy | hy <;> rw [List.eq_of_mem_replicate hy] <;> norm_num
    · rw [List.eq_of_mem_replicate hx]
      norm_num
  rw [show (2 * 4 : Nat) = 4 * 2 from rfl,
    nib_mask_pattern _ ((w + 4) / 2) (h + 2) _ n hrowlen hrowb]
  set m := n - 2 with hm
  have hS2 : ((w + 4) : Nat) % 2 = 0 := by omega
  have hSpos : 0 < w + 4 := by omega
  have hhalf := half_mod m (w + 4) hS2 hSpos
  have hmS : m % (w + 4) < w + 4 := Nat.mod_lt _ hSpos
  have hcond1 : m / 2 < (h + 2) * ((w + 4) / 2) ↔ m < (w + 4) * (h + 2) := by
    have hx : 2 * ((h + 2) * ((w + 4) / 2)) = (w + 4) * (h + 2) := by
      subst hwu
      have hy : (2 * u + 4) / 2 = u + 2 := by omega
      rw [hy]
      ring
    omega
  by_cases hc : 2 ≤ n ∧ m / 2 < (h + 2) * ((w + 4) / 2)
  · rw [if_pos hc, getD_wrapL_row]
    have hd1 : decide (2 ≤ n) = true := by simp [hc.1]
    have hd2 : decide (m < (w + 4) * (h + 2)) = true := by simp [hcond1.mp hc.2]
    rw [hd1, hd2]
    by_cases hcol : m % (w + 4) < 2
    · have hcol2 : m / 2 % ((w + 4) / 2) = 0 := by
        rw [hhalf]
        omega
      rw [if_pos hcol2]
      have hd3 : decide (m % (w + 4) < 2) = true := by simp [hcol]
      rw [hd3]
      rcases Nat.mod_two_eq_zero_or_one m with hp | hp <;> rw [hp] <;> decide
    · have hcol2 : ¬ (m / 2 % ((w + 4) / 2) = 0) := by
        rw [hhalf]
        omega
      rw [if_neg hcol2, nib_zero]
      have hd3 : decide (m % (w + 4) < 2) = false := by simp [hcol]
      rw [hd3]
      decide
  · rw [if_neg hc]
    rcases not_and_or.mp hc with hna | hnb
    · have hd1 : decide (2 ≤ n) = false := by
        simp
        omega
      rw [hd1]
      simp
    · have hd2 : decide (m < (w + 4) * (h + 2)) = false := by
        simp
        omega
      rw [hd2]
      simp

/-- `MASK_WRAP_RIGHT` (padding 4) has nibble 1 exactly on `mrconj`. -/
theorem nib_mask_wrap_right4 (w h n : Nat) (hw : w % 2 = 0) (hw2 : 2 ≤ w) :
    nib (MASK_WRAP_RIGHT 4 w h) n = cond (mrconj w h n) 1 0 := by
  unfold MASK_WRAP_RIGHT mrconj
  obtain ⟨u, hwu⟩ : ∃ u, w = 2 * u := ⟨w / 2, by omega⟩
  have hrowlen : (List.replicate ((w - 4 / 2) / 2) 0x00
      ++ List.replicate ((4 : Nat) / 2 / 2) 0x11 ++ List.replicate ((4 : Nat) / 2) 0x00).length
      = (w + 4) / 2 := by
    simp only [List.length_append, List.length_replicate]
    omega
  have hrowb : ∀ b ∈ List.replicate ((w - 4 / 2) / 2) 0x00
      ++ List.replicate ((4 : Nat) / 2 / 2) 0x11 ++ List.replicate ((4 : Nat) / 2) 0x00,
      b < 256 := by
    intro b hbm
    rcases List.mem_append.mp hbm with hx | hx
    · rcases List.mem_append.mp hx with hy | hy <;> rw [List.eq_of_mem_replicate hy] <;> norm_num
    · rw [List.eq_of_mem_replicate hx]
      norm_num
  rw [show (2 * 4 : Nat) = 4 * 2 from rfl,
    nib_mask_pattern _ ((w + 4) / 2) (h + 2) _ n hrowlen hrowb]
  set m := n - 2 with hm
  have hS2 : ((w + 4) : Nat) % 2 = 0 := by omega
  have hSpos : 0 < w + 4 := by omega
  have hhalf := half_mod m (w + 4) hS2 hSpos
  have hmS : m % (w + 4) < w + 4 := Nat.mod_lt _ hSpos
  have hcond1 : m / 2 < (h + 2) * ((w + 4) / 2) ↔ m < (w + 4) * (h + 2) := by
    have hx : 2 * ((h + 2) * ((w + 4) / 2)) = (w + 4) * (h + 2) := by
      subst hwu
      have hy : (2 * u + 4) / 2 = u + 2 := by omega
      rw [hy]
      ring
    omega
  by_cases hc : 2 ≤ n ∧ m / 2 < (h + 2) * ((w + 4) / 2)
  · rw [if_pos hc, getD_wrapR_row]
    have hd1 : decide (2 ≤ n) = true := by simp [hc.1]
    have hd2 : decide (m < (w + 4) * (h + 2)) = true := by simp [hcond1.mp hc.2]
    rw [hd1, hd2]
    by_cases hcol : w - 2 ≤ m % (w + 4) ∧ m % (w + 4) < w
    · have hcol2 : m / 2 % ((w + 4) / 2) = (w - 4 / 2) / 2 := by
        rw [hhalf]
        omega
      rw [if_pos hcol2]
      have hd3 : decide (w - 2 ≤ m % (w + 4)) = true := by simp [hcol.1]
      have hd4 : decide (m % (w + 4) < w) = true := by simp [hcol.2]
      rw [hd3, hd4]
      rcases Nat.mod_two_eq_zero_or_one m with hp | hp <;> rw [hp] <;> decide
    · have hcol2 : ¬ (m / 2 % ((w + 4) / 2) = (w - 4 / 2) / 2) := by
        rw [hhalf]
        omega
      rw [if_neg hcol2, nib_zero]
      rcases not_and_or.mp hcol with hx | hx
      · have hd3 : decide (w - 2 ≤ m % (w + 4)) = false := by
          simp
          omega
        rw [hd3]
        simp
      · have hd4 : decide (m % (w + 4) < w) = false := by
          simp
          omega
        rw [hd4]
        simp
  · rw [if_neg hc]
    rcases not_and_or.mp hc with hna | hnb
    · have hd1 : decide (2 ≤ n) = false := by
        simp
        omega
      rw [hd1]
      simp
    · have hd2 : decide (m < (w + 4) * (h + 2)) = false := by
        simp
        omega
      rw [hd2]
      simp

/-- Nibbles of `MASK_1 * c` (padding 4): the constant `c` on the block. -/
theorem nib_mask_not (w h cc n : Nat) (hw : w % 2 = 0) (hc : cc < 16) :
    nib (MASK_1 4 w h * cc) n = cond (m1conj w h n) cc 0 := by
  have hm1 : ∀ i, nib (MASK_1 4 w h) i = cond (m1conj w h i) 1 0 :=
    fun i => nib_mask_1 w h i hw
  have hbound : MASK_1 4 w h < 16 ^ ((w + 4) + 2 + (w + 4) * h) := by
    unfold MASK_1
    rw [Nat.shiftLeft_eq]
    have hF := fromBytesLE_lt
      (l := List.replicate (STATE_BYTE_LENGTH 4 w h) 0x11)
      (fun b hbm => by rw [List.eq_of_mem_replicate hbm]; norm_num)
    rw [List.length_replicate] at hF
    have h256 : (256 : Nat) ^ STATE_BYTE_LENGTH 4 w h = 16 ^ ((w + 4) * h) := by
      have h2 : ((256 : Nat)) = 16 ^ 2 := by norm_num
      rw [h2, ← pow_mul, ← two_sbl w h hw]
    have hbias : (2 : Nat) ^ BIAS 4 w = 16 ^ ((w + 4) + 2) := by
      unfold BIAS STRIDE
      rw [pow16_eq]
      congr 1
      ring
    calc fromBytesLE (List.replicate (STATE_BYTE_LENGTH 4 w h) 0x11) * 2 ^ BIAS 4 w
        < 16 ^ ((w + 4) * h) * 2 ^ BIAS 4 w := by
          apply Nat.mul_lt_mul_of_lt_of_le _ (le_refl _) (by positivity)
          rw [← h256]
          exact hF
      _ = 16 ^ ((w + 4) + 2 + (w + 4) * h) := by
          rw [hbias, ← pow_add]
          congr 1
          ring
  have hexp : MASK_1 4 w h
      = sumNib (fun i => nib (MASK_1 4 w h) i) ((w + 4) + 2 + (w + 4) * h) :=
    (sumNib_nib hbound).symm
  conv_lhs => rw [hexp]
  rw [sumNib_mul, nib_sumNib _ _ (fun i => by
    rw [hm1 i]
    cases m1conj w h i
    · simp
    · simpa using hc)]
  by_cases hn : n < (w + 4) + 2 + (w + 4) * h
  · rw [if_pos hn, hm1 n]
    cases m1conj w h n <;> simp
  · rw [if_neg hn]
    unfold m1conj
    have hd : decide (n - ((w + 4) + 2) < (w + 4) * h) = false := by
      simp
      omega
    rw [hd, Bool.and_false]
    rfl

theorem nib_mask_not3 (w h n : Nat) (hw : w % 2 = 0) :
    nib (MASK_NOT_3 4 w h) n = cond (m1conj w h n) 12 0 := by
  unfold MASK_NOT_3
  rw [show ((15 : Nat) ^^^ 3) = 12 from rfl]
  exact nib_mask_not w h 12 n hw (by norm_num)

theorem nib_mask_not4 (w h n : Nat) (hw : w % 2 = 0) :
    nib (MASK_NOT_4 4 w h) n = cond (m1conj w h n) 11 0 := by
  unfold MASK_NOT_4
  rw [show ((15 : Nat) ^^^ 4) = 11 from rfl]
  exact nib_mask_not w h 11 n hw (by norm_num)

theorem nib_mask_not7 (w h n : Nat) (hw : w % 2 = 0) :
    nib (MASK_NOT_7 4 w h) n = cond (m1conj w h n) 8 0 := by
  unfold MASK_NOT_7
  rw [show ((15 : Nat) ^^^ 7) = 8 from rfl]
  exact nib_mask_not w h 8 n hw (by norm_num)

/-! ### Theorems: nibbles of the encoded canvas and its packed messages -/

theorem canvas_nib_lt (p w : Nat) (c : Nat → Nat → Bool) (q : Nat) :
    canvas_nib p w c q < 16 := by
  unfold canvas_nib
  by_cases h1 : q % STRIDE p w < w
  · rw [if_pos h1]
    cases c (q % STRIDE p w) (q / STRIDE p w) <;> norm_num
  · rw [if_neg h1]
    norm_num

theorem canvas_nib_eq_pnib (w h : Nat) (c : Nat → Nat → Bool) (q : Nat)
    (hq : q < (w + 4) * h) : canvas_nib 4 w c q = cond (pnib4 w h c q) 1 0 := by
  unfold canvas_nib pnib4 STRIDE
  have hd1 : decide (q < (w + 4) * h) = true := by simp [hq]
  rw [hd1, Bool.true_and]
  by_cases hcol : q % (w + 4) < w
  · rw [if_pos hcol]
    have hd2 : decide (q % (w + 4) < w) = true := by simp [hcol]
    rw [hd2, Bool.true_and]
  · rw [if_neg hcol]
    have hd2 : decide (q % (w + 4) < w) = false := by simp [hcol]
    rw [hd2, Bool.false_and]
    rfl

theorem pnib4_false_of_ge (w h : Nat) (c : Nat → Nat → Bool) (q : Nat)
    (hq : (w + 4) * h ≤ q) : pnib4 w h c q = false := by
  unfold pnib4
  have hd : decide (q < (w + 4) * h) = false := by
    simp
    omega
  rw [hd, Bool.false_and, Bool.false_and]

theorem nib_encode (w h : Nat) (c : Nat → Nat → Bool) (n : Nat) :
    nib (encode_canvas 4 w h c) n
      = cond (decide ((w + 4) + 2 ≤ n) && pnib4 w h c (n - ((w + 4) + 2))) 1 0 := by
  unfold encode_canvas
  have hbias : BIAS 4 w = 4 * ((w + 4) + 2) := by
    unfold BIAS STRIDE
    ring
  rw [hbias, nib_shiftLeft]
  by_cases h1 : n < (w + 4) + 2
  · rw [if_pos h1]
    have hd : decide ((w + 4) + 2 ≤ n) = false := by
      simp
      omega
    rw [hd, Bool.false_and]
    rfl
  · rw [if_neg h1]
    have hd : decide ((w + 4) + 2 ≤ n) = true := by
      simp
      omega
    rw [hd, Bool.true_and]
    rw [nib_sumNib _ _ (canvas_nib_lt 4 w c)]
    show (if n - ((w + 4) + 2) < STRIDE 4 w * h then canvas_nib 4 w c (n - ((w + 4) + 2)) else 0)
      = cond (pnib4 w h c (n - ((w + 4) + 2))) 1 0
    have hstr : STRIDE 4 w = w + 4 := rfl
    rw [hstr]
    by_cases h2 : n - ((w + 4) + 2) < (w + 4) * h
    · rw [if_pos h2, canvas_nib_eq_pnib w h c _ h2]
    · rw [if_neg h2, pnib4_false_of_ge w h c _ (by omega)]
      rfl

theorem unshift_encode (w h : Nat) (c : Nat → Nat → Bool) :
    encode_canvas 4 w h c >>> BIAS 4 w = sumNib (canvas_nib 4 w c) (STRIDE 4 w * h) := by
  unfold encode_canvas
  rw [Nat.shiftLeft_eq, Nat.shiftRight_eq_div_pow, Nat.mul_div_cancel _ (by positivity)]

theorem byteNib_packed (w h : Nat) (c : Nat → Nat → Bool) (k : Nat) (hw : w % 2 = 0) :
    byteNib (packed_of 4 w h c) k = cond (pnib4 w h c k) 1 0 := by
  unfold packed_of
  rw [unshift_encode, byteNib_toBytesLE]
  have h2sbl := two_sbl w h hw
  have hstr : STRIDE 4 w = w + 4 := rfl
  by_cases h1 : k < 2 * STATE_BYTE_LENGTH 4 w h
  · rw [if_pos h1, nib_sumNib _ _ (canvas_nib_lt 4 w c), hstr]
    have h2 : k < (w + 4) * h := by omega
    rw [if_pos h2, canvas_nib_eq_pnib w h c _ h2]
  · rw [if_neg h1, pnib4_false_of_ge w h c _ (by omega)]
    rfl

theorem getD_drop_bytes (l : List Nat) (d i : Nat) :
    (l.drop d).getD i 0 = l.getD (d + i) 0 := by
  rw [List.getD_eq_getElem?_getD, List.getElem?_drop, ← List.getD_eq_getElem?_getD]

theorem getD_take_bytes (l : List Nat) (m i : Nat) :
    (l.take m).getD i 0 = if i < m then l.getD i 0 else 0 := by
  rw [List.getD_eq_getElem?_getD, List.getElem?_take]
  by_cases h : i < m <;> simp [h, List.getD_eq_getElem?_getD]

theorem byteNib_drop (l : List Nat) (d k : Nat) :
    byteNib (l.drop d) k = byteNib l (2 * d + k) := by
  unfold byteNib
  rw [getD_drop_bytes]
  have h1 : (2 * d + k) / 2 = d + k / 2 := by omega
  have h2 : (2 * d + k) % 2 = k % 2 := by omega
  rw [h1, h2]

theorem byteNib_take (l : List Nat) (m k : Nat) :
    byteNib (l.take m) k = if k < 2 * m then byteNib l k else 0 := by
  unfold byteNib
  rw [getD_take_bytes]
  by_cases h : k / 2 < m
  · rw [if_pos h, if_pos (by omega)]
  · rw [if_neg h, if_neg (by omega), nib_zero]

/-! ### Theorems: the state after vertical and horizontal wrap (padding 4) -/

theorem state1_nib (w h : Nat) (c : Nat → Nat → Bool)
    (hw2 : 2 ≤ w) (hwe : w % 2 = 0) (hh : 2 ≤ h) (n : Nat) :
    nib (vertical_wrap 4 w h (encode_canvas 4 w h c)
      (halo_bottom_message 4 w (packed_of 4 w h c))
      (halo_top_message 4 w (packed_of 4 w h c))) n
    = cond (s1fn w h c n) 1 0 := by
  obtain ⟨u, hwu⟩ : ∃ u, w = 2 * u := ⟨w / 2, by omega⟩
  have hlen : (packed_of 4 w h c).length = STATE_BYTE_LENGTH 4 w h := by
    unfold packed_of
    exact length_toBytesLE _ _
  have hpb : ∀ b ∈ packed_of 4 w h c, b < 256 := by
    unfold packed_of
    exact toBytesLE_lt _ _
  have hsblS : 2 * STATE_BYTE_LENGTH 4 w h = (w + 4) * h := two_sbl w h hwe
  have hsbl2 : STRIDE 4 w / 2 + 1 ≤ STATE_BYTE_LENGTH 4 w h := by
    have hx : (w + 4) * 2 ≤ (w + 4) * h := Nat.mul_le_mul_left _ hh
    show (w + 4) / 2 + 1 ≤ STATE_BYTE_LENGTH 4 w h
    omega
  have ht : ∀ i, nib (fromBytesLE (halo_bottom_message 4 w (packed_of 4 w h c))) i
      = cond (pnib4 w h c ((w + 4) * h - ((w + 4) + 2) + i)) 1 0 := by
    intro i
    unfold halo_bottom_message
    rw [nib_fromBytesLE (fun b hbm => hpb b (List.drop_subset _ _ hbm)), byteNib_drop,
      byteNib_packed w h c _ hwe]
    congr 2
    rw [hlen]
    show 2 * (STATE_BYTE_LENGTH 4 w h - ((w + 4) / 2 + 1)) + i
      = (w + 4) * h - ((w + 4) + 2) + i
    omega
  have hbmsg : ∀ i, nib (fromBytesLE (halo_top_message 4 w (packed_of 4 w h c))) i
      = if i < (w + 4) + 2 then cond (pnib4 w h c i) 1 0 else 0 := by
    intro i
    unfold halo_top_message
    rw [nib_fromBytesLE (fun b hbm => hpb b (List.take_subset _ _ hbm)), byteNib_take,
      byteNib_packed w h c _ hwe]
    show (if i < 2 * (STRIDE 4 w / 2 + 1) then cond (pnib4 w h c i) 1 0 else 0) = _
    have hx : 2 * (STRIDE 4 w / 2 + 1) = (w + 4) + 2 := by
      show 2 * ((w + 4) / 2 + 1) = (w + 4) + 2
      omega
    rw [hx]
  unfold vertical_wrap
  rw [nib_lor, nib_lor, nib_encode, ht]
  have hshift : WRAPSHIFT 4 w h + BIAS 4 w = 4 * ((w + 4) * h + ((w + 4) + 2)) := by
    unfold WRAPSHIFT BIAS STRIDE
    ring
  have hb : nib (fromBytesLE (halo_top_message 4 w (packed_of 4 w h c))
      <<< (WRAPSHIFT 4 w h + BIAS 4 w)) n
      = cond (decide ((w + 4) * h + ((w + 4) + 2) ≤ n)
        && (decide (n - ((w + 4) * h + ((w + 4) + 2)) < (w + 4) + 2)
          && pnib4 w h c (n - ((w + 4) * h + ((w + 4) + 2))))) 1 0 := by
    rw [hshift, nib_shiftLeft]
    by_cases h1 : n < (w + 4) * h + ((w + 4) + 2)
    · rw [if_pos h1]
      have hd : decide ((w + 4) * h + ((w + 4) + 2) ≤ n) = false := by
        simp
        omega
      rw [hd, Bool.false_and]
      rfl
    · rw [if_neg h1, hbmsg]
      have hd : decide ((w + 4) * h + ((w + 4) + 2) ≤ n) = true := by
        simp
        omega
      rw [hd, Bool.true_and]
      by_cases h2 : n - ((w + 4) * h + ((w + 4) + 2)) < (w + 4) + 2
      · rw [if_pos h2]
        have hd2 : decide (n - ((w + 4) * h + ((w + 4) + 2)) < (w + 4) + 2) = true := by
          simp [h2]
        rw [hd2, Bool.true_and]
      · rw [if_neg h2]
        have hd2 : decide (n - ((w + 4) * h + ((w + 4) + 2)) < (w + 4) + 2) = false := by
          simp [h2]
        rw [hd2, Bool.false_and]
        rfl
  rw [hb, cond_or_cond, cond_or_cond]
  rfl

theorem state2_nib (w h : Nat) (c : Nat → Nat → Bool)
    (hw2 : 2 ≤ w) (hwe : w % 2 = 0)
    (st1 : Nat) (hst1 : ∀ i, nib st1 i = cond (s1fn w h c i) 1 0) (n : Nat) :
    nib (horizontal_wrap 4 w h st1) n = cond (s2fn w h c n) 1 0 := by
  unfold horizontal_wrap
  rw [nib_lor, nib_lor, hst1]
  have hL : nib ((st1 &&& MASK_WRAP_LEFT 4 w h) <<< (w * 4)) n
      = cond (wrapLfn w h c n) 1 0 := by
    rw [nib_shiftLeft_col]
    by_cases hn : n < w
    · rw [if_pos hn]
      unfold wrapLfn
      have hd : decide (w ≤ n) = false := by
        simp
        omega
      rw [hd, Bool.false_and]
      rfl
    · rw [if_neg hn, nib_land, hst1, nib_mask_wrap_left4 _ _ _ hwe hw2, cond_and_cond]
      unfold wrapLfn
      have hd : decide (w ≤ n) = true := by
        simp
        omega
      rw [hd, Bool.true_and]
  have hR : nib ((st1 &&& MASK_WRAP_RIGHT 4 w h) >>> (w * 4)) n
      = cond (wrapRfn w h c n) 1 0 := by
    rw [nib_shiftRight_col, nib_land, hst1, nib_mask_wrap_right4 _ _ _ hwe hw2, cond_and_cond]
    rfl
  rw [hL, hR, cond_or_cond, cond_or_cond]
  rfl

/-! ### Theorems: regional evaluation of the wrapped state (padding 4) -/

theorem decomp_mod (s q r : Nat) (hr : r < s) : (q * s + r) % s = r := by
  rw [show q * s + r = s * q + r from by ring, Nat.mul_add_mod, Nat.mod_eq_of_lt hr]

theorem decomp_div (s q r : Nat) (hr : r < s) : (q * s + r) / s = q := by
  have hs : 0 < s := by omega
  rw [show q * s + r = s * q + r from by ring, Nat.mul_add_div hs, Nat.div_eq_of_lt hr,
    Nat.add_zero]

/-- Evaluation of `s1fn` on row `b` (0 = top halo row, `height+1` = bottom halo
row), column `a'` of the linear layout: the torus row `(b + height - 1) % height`
of the canvas, on payload columns. -/
theorem s1_at (w h : Nat) (c : Nat → Nat → Bool) (hw2 : 2 ≤ w) (hh : 2 ≤ h)
    (b a' : Nat) (hb : b ≤ h + 1) (ha : a' < w + 4) :
    s1fn w h c (b * (w + 4) + a' + 2)
      = (decide (a' < w) && c a' ((b + h - 1) % h)) := by
  have hP : (w + 4) * h = h * (w + 4) := Nat.mul_comm _ _
  have hP2 : 2 * (w + 4) ≤ h * (w + 4) := Nat.mul_le_mul_right _ hh
  unfold s1fn pnib4
  rcases Nat.eq_zero_or_pos b with hb0 | hb1
  · subst hb0
    have hd1 : decide ((w + 4) + 2 ≤ 0 * (w + 4) + a' + 2) = false := by
      simp
      omega
    have hd3 : decide ((w + 4) * h + ((w + 4) + 2) ≤ 0 * (w + 4) + a' + 2) = false := by
      simp
      omega
    rw [hd1, hd3, Bool.false_and, Bool.false_and, Bool.false_or, Bool.or_false]
    have hmulh : (h - 1) * (w + 4) + (w + 4) = h * (w + 4) := by
      have hx : h - 1 + 1 = h := by omega
      calc (h - 1) * (w + 4) + (w + 4) = (h - 1 + 1) * (w + 4) := by ring
        _ = h * (w + 4) := by rw [hx]
    have hq2 : (w + 4) * h - ((w + 4) + 2) + (0 * (w + 4) + a' + 2)
        = (h - 1) * (w + 4) + a' := by
      omega
    rw [hq2, decomp_mod _ _ _ ha, decomp_div _ _ _ ha]
    have hd2 : decide ((h - 1) * (w + 4) + a' < (w + 4) * h) = true := by
      simp
      omega
    rw [hd2, Bool.true_and]
    have hmod : (0 + h - 1) % h = h - 1 := by
      rw [Nat.mod_eq_of_lt (by omega : 0 + h - 1 < h)]
      omega
    rw [hmod]
  · by_cases hbh : b ≤ h
    · have hmulb : (b - 1) * (w + 4) + (w + 4) = b * (w + 4) := by
        have hx : b - 1 + 1 = b := by omega
        calc (b - 1) * (w + 4) + (w + 4) = (b - 1 + 1) * (w + 4) := by ring
          _ = b * (w + 4) := by rw [hx]
      have hmono : b * (w + 4) ≤ h * (w + 4) := Nat.mul_le_mul_right _ hbh
      have hd1 : decide ((w + 4) + 2 ≤ b * (w + 4) + a' + 2) = true := by
        simp
        omega
      have hd3 : decide ((w + 4) * h + ((w + 4) + 2) ≤ b * (w + 4) + a' + 2) = false := by
        simp
        omega
      rw [hd1, hd3, Bool.true_and, Bool.false_and, Bool.or_false]
      have hq1 : b * (w + 4) + a' + 2 - ((w + 4) + 2) = (b - 1) * (w + 4) + a' := by
        omega
      rw [hq1, decomp_mod _ _ _ ha, decomp_div _ _ _ ha]
      have hd1b : decide ((b - 1) * (w + 4) + a' < (w + 4) * h) = true := by
        simp
        omega
      rw [hd1b, Bool.true_and]
      have hq2 : (w + 4) * h - ((w + 4) + 2) + (b * (w + 4) + a' + 2)
          = (w + 4) * h + ((b - 1) * (w + 4) + a') := by
        omega
      rw [hq2]
      have hd2 : decide ((w + 4) * h + ((b - 1) * (w + 4) + a') < (w + 4) * h) = false := by
        simp
      rw [hd2, Bool.false_and, Bool.false_and, Bool.or_false]
      have hmod : (b + h - 1) % h = b - 1 := by
        have hx : b + h - 1 = (b - 1) + h := by omega
        rw [hx, Nat.add_mod_right, Nat.mod_eq_of_lt (by omega)]
      rw [hmod]
    · have hbe : b = h + 1 := by omega
      subst hbe
      have hmul2 : (h + 1) * (w + 4) = (w + 4) * h + (w + 4) := by ring
      have hd1 : decide ((w + 4) + 2 ≤ (h + 1) * (w + 4) + a' + 2) = true := by
        simp
        omega
      have hd3 : decide ((w + 4) * h + ((w + 4) + 2) ≤ (h + 1) * (w + 4) + a' + 2) = true := by
        simp
        omega
      rw [hd1, hd3, Bool.true_and, Bool.true_and]
      have hq1 : (h + 1) * (w + 4) + a' + 2 - ((w + 4) + 2) = h * (w + 4) + a' := by
        omega
      rw [hq1]
      have hd1b : decide (h * (w + 4) + a' < (w + 4) * h) = false := by
        simp
        omega
      rw [hd1b, Bool.false_and, Bool.false_and, Bool.false_or]
      have hq2 : (w + 4) * h - ((w + 4) + 2) + ((h + 1) * (w + 4) + a' + 2)
          = (w + 4) * h + ((h - 1) * (w + 4) + (w + 4) + a') := by
        have hmulh : (h - 1) * (w + 4) + (w + 4) = h * (w + 4) := by
          have hx : h - 1 + 1 = h := by omega
          calc (h - 1) * (w + 4) + (w + 4) = (h - 1 + 1) * (w + 4) := by ring
            _ = h * (w + 4) := by rw [hx]
        omega
      rw [hq2]
      have hd2 : decide ((w + 4) * h + ((h - 1) * (w + 4) + (w + 4) + a') < (w + 4) * h)
          = false := by
        simp
      rw [hd2, Bool.false_and, Bool.false_and, Bool.false_or]
      have hq3 : (h + 1) * (w + 4) + a' + 2 - ((w + 4) * h + ((w + 4) + 2)) = a' := by
        omega
      rw [hq3]
      have hd4 : decide (a' < (w + 4) + 2) = true := by
        simp
        omega
      have hd5 : decide (a' < (w + 4) * h) = true := by
        simp
        omega
      rw [hd4, Bool.true_and, hd5, Bool.true_and,
        Nat.mod_eq_of_lt ha, Nat.div_eq_of_lt ha]
      have hmod : (h + 1 + h - 1) % h = 0 := by
        have hx : h + 1 + h - 1 = 2 * h := by omega
        rw [hx, Nat.mul_mod_left]
      rw [hmod]

theorem dec_true {p : Prop} [Decidable p] (hp : p) : decide p = true := by
  simpa using hp

theorem dec_false {p : Prop} [Decidable p] (hp : ¬ p) : decide p = false := by
  simpa using hp

/-- The wrapped state's nibble at offset `(da-1, db-1)` from payload cell
`(x, y)` is the toroidal neighbour of `(x, y)` at that offset. -/
theorem s2_master (w h : Nat) (c : Nat → Nat → Bool)
    (hw2 : 2 ≤ w) (hwe : w % 2 = 0) (hh : 2 ≤ h)
    (x y da db : Nat) (hx : x < w) (hy : y < h) (hda : da < 3) (hdb : db < 3) :
    s2fn w h c ((y + db) * (w + 4) + (x + da) + 1)
      = torus_cell c w h (x + w + da - 1) (y + h + db - 1) := by
  have hble : y + db ≤ h + 1 := by omega
  have hmono : (y + db) * (w + 4) ≤ (h + 1) * (w + 4) := Nat.mul_le_mul_right _ hble
  have hmono2 : (h + 1) * (w + 4) + (w + 4) = (h + 2) * (w + 4) := by ring
  have hcomm2 : (w + 4) * (h + 2) = (h + 2) * (w + 4) := Nat.mul_comm _ _
  have hmb : (y + db) ≥ 1 → ((y + db) - 1) * (w + 4) + (w + 4) = (y + db) * (w + 4) := by
    intro hge
    have hz : (y + db) - 1 + 1 = y + db := by omega
    calc ((y + db) - 1) * (w + 4) + (w + 4) = ((y + db) - 1 + 1) * (w + 4) := by ring
      _ = (y + db) * (w + 4) := by rw [hz]
  have hp1 : ((y + db) + 1) * (w + 4) = (y + db) * (w + 4) + (w + 4) := by ring
  unfold s2fn torus_cell
  have hrow : (y + db + h - 1) % h = (y + h + db - 1) % h := by
    congr 1
    omega
  rcases Nat.eq_zero_or_pos (x + da) with ha0 | ha1
  · -- column -1: the value comes from the right-wrap copy of column w-1
    have hxcol : (x + w + da - 1) % w = w - 1 := by
      rw [show x + w + da - 1 = w - 1 from by omega, Nat.mod_eq_of_lt (by omega)]
    rcases Nat.eq_zero_or_pos (y + db) with hb0 | hb1
    · -- position n = 1 (row -1, column -1)
      rw [hb0, ha0]
      simp only [Nat.zero_mul, Nat.zero_add]
      have hs1 : s1fn w h c 1 = false := by
        unfold s1fn pnib4
        have hcm : (w + 4) * h = h * (w + 4) := Nat.mul_comm _ _
        have hmulh : (h - 2) * (w + 4) + 2 * (w + 4) = h * (w + 4) := by
          have hz : h - 2 + 2 = h := by omega
          calc (h - 2) * (w + 4) + 2 * (w + 4) = (h - 2 + 2) * (w + 4) := by ring
            _ = h * (w + 4) := by rw [hz]
        have hd1 : decide ((w + 4) + 2 ≤ 1) = false := dec_false (by omega)
        have hd3 : decide ((w + 4) * h + ((w + 4) + 2) ≤ 1) = false := dec_false (by omega)
        have hq : (w + 4) * h - ((w + 4) + 2) + 1 = (h - 2) * (w + 4) + (w + 3) := by
          omega
        rw [hq, decomp_mod _ _ _ (by omega)]
        have hd2 : decide (w + 3 < w) = false := dec_false (by omega)
        simp only [hd1, hd2, hd3, Bool.false_and, Bool.and_false, Bool.false_or,
          Bool.or_false]
      have hwl : wrapLfn w h c 1 = false := by
        unfold wrapLfn
        have hd : decide (w ≤ 1) = false := dec_false (by omega)
        simp only [hd, Bool.false_and]
      have hwr : wrapRfn w h c 1 = c (w - 1) (h - 1) := by
        unfold wrapRfn mrconj
        have hn1 : 1 + w = 0 * (w + 4) + (w - 1) + 2 := by omega
        rw [hn1, s1_at w h c hw2 hh 0 (w - 1) (by omega) (by omega)]
        have hq : 0 * (w + 4) + (w - 1) + 2 - 2 = 0 * (w + 4) + (w - 1) := by omega
        rw [hq, decomp_mod _ _ _ (by omega)]
        have hmod0 : (0 + h - 1) % h = h - 1 := by
          rw [Nat.mod_eq_of_lt (by omega : 0 + h - 1 < h)]
          omega
        rw [hmod0]
        have hd1 : decide (w - 1 < w) = true := dec_true (by omega)
        have hd2 : decide (2 ≤ 0 * (w + 4) + (w - 1) + 2) = true := dec_true (by omega)
        have hd3 : decide (0 * (w + 4) + (w - 1) < (w + 4) * (h + 2)) = true :=
          dec_true (by omega)
        have hd4 : decide (w - 2 ≤ w - 1) = true := dec_true (by omega)
        simp only [hd1, hd2, hd3, hd4, Bool.true_and, Bool.and_true]
      rw [hs1, hwl, hwr, Bool.false_or, Bool.false_or, hxcol]
      congr 1
      rw [show y + h + db - 1 = h - 1 from by omega, Nat.mod_eq_of_lt (by omega)]
    · -- row b >= 1, column -1: the right-wrap copy of column w-1 of this row
      have hnx : (y + db) * (w + 4) + (x + da) + 1
          = ((y + db) - 1) * (w + 4) + (w + 3) + 2 := by
        have := hmb hb1
        omega
      have hs1 : s1fn w h c ((y + db) * (w + 4) + (x + da) + 1) = false := by
        rw [hnx, s1_at w h c hw2 hh ((y + db) - 1) (w + 3) (by omega) (by omega)]
        have hd : decide (w + 3 < w) = false := dec_false (by omega)
        simp only [hd, Bool.false_and]
      have hwl : wrapLfn w h c ((y + db) * (w + 4) + (x + da) + 1) = false := by
        unfold wrapLfn mlconj
        have hq : (y + db) * (w + 4) + (x + da) + 1 - w - 2
            = ((y + db) - 1) * (w + 4) + 3 := by
          have := hmb hb1
          omega
        have hd : decide (((y + db) * (w + 4) + (x + da) + 1 - w - 2) % (w + 4) < 2)
            = false := by
          rw [hq, decomp_mod _ _ _ (by omega)]
          exact dec_false (by omega)
        simp only [hd, Bool.and_false, Bool.false_and]
      have hwr : wrapRfn w h c ((y + db) * (w + 4) + (x + da) + 1)
          = c (w - 1) ((y + db + h - 1) % h) := by
        unfold wrapRfn mrconj
        have hm : (y + db) * (w + 4) + (x + da) + 1 + w
            = (y + db) * (w + 4) + (w - 1) + 2 := by omega
        rw [hm, s1_at w h c hw2 hh (y + db) (w - 1) hble (by omega)]
        have hq : (y + db) * (w + 4) + (w - 1) + 2 - 2 = (y + db) * (w + 4) + (w - 1) := by
          omega
        rw [hq, decomp_mod _ _ _ (by omega)]
        have hd1 : decide (w - 1 < w) = true := dec_true (by omega)
        have hd2 : decide (2 ≤ (y + db) * (w + 4) + (w - 1) + 2) = true :=
          dec_true (by omega)
        have hd3 : decide ((y + db) * (w + 4) + (w - 1) < (w + 4) * (h + 2)) = true :=
          dec_true (by omega)
        have hd4 : decide (w - 2 ≤ w - 1) = true := dec_true (by omega)
        simp only [hd1, hd2, hd3, hd4, Bool.true_and, Bool.and_true]
      rw [hs1, hwl, hwr, Bool.false_or, Bool.false_or, hxcol, hrow]
  · -- column x + da - 1 in 0..w: s1 directly, or the left-wrap copy at column w
    have hnx : (y + db) * (w + 4) + (x + da) + 1
        = (y + db) * (w + 4) + (x + da - 1) + 2 := by omega
    by_cases haw : x + da - 1 < w
    · -- payload column: the value is s1's own entry; both wraps are silent
      have hxcol : (x + w + da - 1) % w = x + da - 1 := by
        rw [show x + w + da - 1 = (x + da - 1) + w from by omega, Nat.add_mod_right,
          Nat.mod_eq_of_lt haw]
      have hs1 : s1fn w h c ((y + db) * (w + 4) + (x + da) + 1)
          = c (x + da - 1) ((y + db + h - 1) % h) := by
        rw [hnx, s1_at w h c hw2 hh (y + db) (x + da - 1) hble (by omega)]
        have hd : decide (x + da - 1 < w) = true := dec_true haw
        rw [hd, Bool.true_and]
      have hwl : wrapLfn w h c ((y + db) * (w + 4) + (x + da) + 1) = false := by
        unfold wrapLfn mlconj
        rcases Nat.eq_zero_or_pos (y + db) with hb0 | hb1
        · rw [hb0]
          simp only [Nat.zero_mul, Nat.zero_add]
          have hd : decide (2 ≤ x + da + 1 - w) = false := dec_false (by omega)
          simp only [hd, Bool.false_and, Bool.and_false]
        · have hq : (y + db) * (w + 4) + (x + da) + 1 - w - 2
              = ((y + db) - 1) * (w + 4) + (x + da + 3) := by
            have := hmb hb1
            omega
          have hd : decide (((y + db) * (w + 4) + (x + da) + 1 - w - 2) % (w + 4) < 2)
              = false := by
            rw [hq, decomp_mod _ _ _ (by omega)]
            exact dec_false (by omega)
          simp only [hd, Bool.and_false]
      have hwr : wrapRfn w h c ((y + db) * (w + 4) + (x + da) + 1) = false := by
        unfold wrapRfn mrconj
        by_cases ha5 : x + da < 5
        · have hq : (y + db) * (w + 4) + (x + da) + 1 + w - 2
              = (y + db) * (w + 4) + (x + da + w - 1) := by omega
          have hd : decide (((y + db) * (w + 4) + (x + da) + 1 + w - 2) % (w + 4) < w)
              = false := by
            rw [hq, decomp_mod _ _ _ (by omega)]
            exact dec_false (by omega)
          simp only [hd, Bool.and_false]
        · have hq : (y + db) * (w + 4) + (x + da) + 1 + w - 2
              = ((y + db) + 1) * (w + 4) + (x + da - 5) := by
            omega
          have hd : decide (w - 2 ≤ ((y + db) * (w + 4) + (x + da) + 1 + w - 2) % (w + 4))
              = false := by
            rw [hq, decomp_mod _ _ _ (by omega)]
            exact dec_false (by omega)
          simp only [hd, Bool.false_and, Bool.and_false]
      rw [hs1, hwl, hwr, Bool.or_false, Bool.or_false, hxcol, hrow]
    · -- column w (x = w-1, da = 2): the left-wrap copy of column 0
      have hxcol : (x + w + da - 1) % w = 0 := by
        rw [show x + w + da - 1 = 2 * w from by omega, Nat.mul_mod_left]
      have hs1 : s1fn w h c ((y + db) * (w + 4) + (x + da) + 1) = false := by
        rw [hnx, s1_at w h c hw2 hh (y + db) (x + da - 1) hble (by omega)]
        have hd : decide (x + da - 1 < w) = false := dec_false haw
        simp only [hd, Bool.false_and]
      have hwl : wrapLfn w h c ((y + db) * (w + 4) + (x + da) + 1)
          = c 0 ((y + db + h - 1) % h) := by
        unfold wrapLfn mlconj
        have hm : (y + db) * (w + 4) + (x + da) + 1 - w
            = (y + db) * (w + 4) + 0 + 2 := by omega
        rw [hm, s1_at w h c hw2 hh (y + db) 0 hble (by omega)]
        have hq : (y + db) * (w + 4) + 0 + 2 - 2 = (y + db) * (w + 4) + 0 := by omega
        rw [hq, decomp_mod _ _ _ (by omega)]
        have hd0 : decide (w ≤ (y + db) * (w + 4) + (x + da) + 1) = true :=
          dec_true (by omega)
        have hd1 : decide ((0 : Nat) < w) = true := dec_true (by omega)
        have hd2 : decide (2 ≤ (y + db) * (w + 4) + 0 + 2) = true := dec_true (by omega)
        have hd3 : decide ((y + db) * (w + 4) + 0 < (w + 4) * (h + 2)) = true :=
          dec_true (by omega)
        have hd4 : decide ((0 : Nat) < 2) = true := dec_true (by omega)
        simp only [hd0, hd1, hd2, hd3, hd4, Bool.true_and, Bool.and_true]
      have hwr : wrapRfn w h c ((y + db) * (w + 4) + (x + da) + 1) = false := by
        unfold wrapRfn mrconj
        by_cases hw4 : w = 2
        · subst hw4
          have hq : (y + db) * (2 + 4) + (x + da) + 1 + 2 - 2
              = (y + db) * (2 + 4) + (x + da + 1) := by omega
          have hd : decide (((y + db) * (2 + 4) + (x + da) + 1 + 2 - 2) % (2 + 4) < 2)
              = false := by
            rw [hq, decomp_mod _ _ _ (by omega)]
            exact dec_false (by omega)
          simp only [hd, Bool.and_false]
        · have hw4b : 4 ≤ w := by omega
          have hq : (y + db) * (w + 4) + (x + da) + 1 + w - 2
              = ((y + db) + 1) * (w + 4) + (w - 4) := by
            omega
          have hd : decide (w - 2 ≤ ((y + db) * (w + 4) + (x + da) + 1 + w - 2) % (w + 4))
              = false := by
            rw [hq, decomp_mod _ _ _ (by omega)]
            exact dec_false (by omega)
          simp only [hd, Bool.false_and, Bool.and_false]
      rw [hs1, hwl, hwr, Bool.false_or, Bool.or_false, hxcol, hrow]

/-! ### Theorems: the per-nibble equality tests -/

theorem fold_bits_eq_15 : ∀ v : Nat, v < 16 →
    ((Nat.testBit v 0 && Nat.testBit v 2) && (Nat.testBit v 1 && Nat.testBit v 3))
      = decide (v = 15) := by
  decide

/-- Bit 0 of each folded nibble is 1 exactly when the nibble was 0xF. -/
theorem testBit_fold_nibble (x n : Nat) :
    (fold_nibble x).testBit (4 * n) = decide (nib x n = 15) := by
  unfold fold_nibble
  simp only [Nat.testBit_land, Nat.testBit_shiftRight]
  have e1 : 2 + 4 * n = 4 * n + 2 := by omega
  have e2 : 1 + 4 * n = 4 * n + 1 := by omega
  have e3 : 2 + (4 * n + 1) = 4 * n + 3 := by omega
  rw [e1, e2, e3]
  have b0 : x.testBit (4 * n) = (nib x n).testBit 0 := by
    rw [testBit_nib x n (by omega), Nat.add_zero]
  have b1 : x.testBit (4 * n + 1) = (nib x n).testBit 1 := (testBit_nib x n (by omega)).symm
  have b2 : x.testBit (4 * n + 2) = (nib x n).testBit 2 := (testBit_nib x n (by omega)).symm
  have b3 : x.testBit (4 * n + 3) = (nib x n).testBit 3 := (testBit_nib x n (by omega)).symm
  rw [b0, b1, b2, b3]
  exact fold_bits_eq_15 (nib x n) (nib_lt x n)

theorem testBit_pyAndNot (a b i : Nat) :
    (pyAndNot a b).testBit i = (a.testBit i && ! b.testBit i) := by
  unfold pyAndNot
  rw [Nat.testBit_xor, Nat.testBit_land]
  cases a.testBit i <;> cases b.testBit i <;> rfl

theorem testBit_of_cond_pattern {st : Nat} {f : Nat → Bool}
    (hst : ∀ i, nib st i = cond (f i) 1 0) (n : Nat) :
    st.testBit (4 * n) = f n := by
  have h0 : (nib st n).testBit 0 = st.testBit (4 * n + 0) := testBit_nib st n (by omega)
  rw [Nat.add_zero] at h0
  rw [← h0, hst n, testBit_zero_cond]

theorem and_one_of_lt : ∀ v : Nat, v < 16 → v &&& 1 = cond (v.testBit 0) 1 0 := by
  decide

theorem xor_11_eq_15 : ∀ v : Nat, v < 16 → decide (v ^^^ 11 = 15) = decide (v = 4) := by
  decide

theorem xor_12_eq_15 : ∀ v : Nat, v < 16 → decide (v ^^^ 12 = 15) = decide (v = 3) := by
  decide

theorem xor_8_eq_15 : ∀ v : Nat, v < 16 → decide (v ^^^ 8 = 15) = decide (v = 7) := by
  decide

theorem rule_bool_dry (s c3 c4 c7 : Bool) :
    ((s && c4) || (c3 || (c7 && !s))) = (c3 || (s && c4) || (true && !s && c7)) := by
  cases s <;> cases c3 <;> cases c4 <;> cases c7 <;> rfl

theorem rule_bool_std (s c3 c4 c7 : Bool) :
    ((s && c4) || c3) = (c3 || (s && c4) || (false && !s && c7)) := by
  cases s <;> cases c3 <;> cases c4 <;> cases c7 <;> rfl

/-! ### Theorems: claim C1, the SWAR kernel refines the naive step -/

theorem torus_val_le_one (c : Nat → Nat → Bool) (width height xx yy : Nat) :
    torus_val c width height xx yy ≤ 1 := cond_le_one _

theorem neighbour_count_lt_16 (c : Nat → Nat → Bool) (width height x y : Nat) :
    neighbour_count c width height x y < 16 := by
  unfold neighbour_count
  have h1 := torus_val_le_one c width height (x + width - 1) (y + height - 1)
  have h2 := torus_val_le_one c width height (x + width) (y + height - 1)
  have h3 := torus_val_le_one c width height (x + width + 1) (y + height - 1)
  have h4 := torus_val_le_one c width height (x + width - 1) (y + height)
  have h5 := torus_val_le_one c width height (x + width) (y + height)
  have h6 := torus_val_le_one c width height (x + width + 1) (y + height)
  have h7 := torus_val_le_one c width height (x + width - 1) (y + height + 1)
  have h8 := torus_val_le_one c width height (x + width) (y + height + 1)
  have h9 := torus_val_le_one c width height (x + width + 1) (y + height + 1)
  omega

theorem decide_cond_eq_one (b : Bool) : decide ((cond b 1 0 : Nat) = 1) = b := by
  cases b <;> rfl

theorem life_step_c1_unfold (drylife : Bool) (w h : Nat) (c : Nat → Nat → Bool) :
    life_step drylife 4 w h (encode_canvas 4 w h c)
      (halo_bottom_message 4 w (packed_of 4 w h c))
      (halo_top_message 4 w (packed_of 4 w h c))
    = ((c1_state2 w h c
          &&& fold_nibble (count_neighbors 4 w (c1_state2 w h c) ^^^ MASK_NOT_4 4 w h))
        ||| (if drylife then
              fold_nibble (count_neighbors 4 w (c1_state2 w h c) ^^^ MASK_NOT_3 4 w h)
                ||| pyAndNot
                  (fold_nibble (count_neighbors 4 w (c1_state2 w h c) ^^^ MASK_NOT_7 4 w h))
                  (c1_state2 w h c)
            else
              fold_nibble (count_neighbors 4 w (c1_state2 w h c) ^^^ MASK_NOT_3 4 w h)))
      &&& MASK_CANVAS 4 w h := rfl

/-- Claim C1 (corrected to strips of height at least 2): for every canvas on an
even width at least 2 and any height at least 2, one execution of the SWAR
kernel body (wrap incorporation via the strip's own halo messages, neighbour
summing, equality tests, rule application, clamp) produces, on every cell, the
same result as a naive cell-by-cell Game of Life step with toroidal wrap -
respectively a naive Drylife step when the drylife flag is set. -/
theorem life_step_refines_naive (drylife : Bool) (w h : Nat) (c : Nat → Nat → Bool)
    (hw2 : 2 ≤ w) (hwe : w % 2 = 0) (hh : 2 ≤ h) (x y : Nat) (hx : x < w) (hy : y < h) :
    decode_cell 4 w
      (life_step drylife 4 w h (encode_canvas 4 w h c)
        (halo_bottom_message 4 w (packed_of 4 w h c))
        (halo_top_message 4 w (packed_of 4 w h c))) x y
    = naive_step drylife c w h x y := by
  have hstr : STRIDE 4 w = w + 4 := rfl
  unfold decode_cell
  rw [hstr, life_step_c1_unfold]
  set n := w + 4 + 2 + y * (w + 4) + x with hn
  have hst1 : ∀ i, nib (vertical_wrap 4 w h (encode_canvas 4 w h c)
      (halo_bottom_message 4 w (packed_of 4 w h c))
      (halo_top_message 4 w (packed_of 4 w h c))) i = cond (s1fn w h c i) 1 0 :=
    fun i => state1_nib w h c hw2 hwe hh i
  have hst2 : ∀ i, nib (c1_state2 w h c) i = cond (s2fn w h c i) 1 0 := by
    intro i
    unfold c1_state2
    exact state2_nib w h c hw2 hwe _ hst1 i
  have hble : ∀ i, nib (c1_state2 w h c) i ≤ 1 := by
    intro i
    rw [hst2 i]
    exact cond_le_one _
  have hb1 : (y + 1) * (w + 4) = y * (w + 4) + (w + 4) := by ring
  have hbb : (y + 2) * (w + 4) = y * (w + 4) + 2 * (w + 4) := by ring
  have hloc := count_neighbors_local 4 w (c1_state2 w h c) hble n (by rw [hstr]; omega)
  rw [hstr] at hloc
  obtain ⟨hsum, -⟩ := hloc
  have m00 := s2_master w h c hw2 hwe hh x y 0 0 hx hy (by omega) (by omega)
  simp only [Nat.add_zero] at m00
  rw [show y * (w + 4) + x + 1 = n - (w + 4) - 1 from by omega] at m00
  have m10 := s2_master w h c hw2 hwe hh x y 1 0 hx hy (by omega) (by omega)
  simp only [Nat.add_zero, Nat.add_sub_cancel] at m10
  rw [show y * (w + 4) + (x + 1) + 1 = n - (w + 4) from by omega] at m10
  have m20 := s2_master w h c hw2 hwe hh x y 2 0 hx hy (by omega) (by omega)
  simp only [Nat.add_zero] at m20
  rw [show x + w + 2 - 1 = x + w + 1 from by omega,
    show y * (w + 4) + (x + 2) + 1 = n - (w + 4) + 1 from by omega] at m20
  have m01 := s2_master w h c hw2 hwe hh x y 0 1 hx hy (by omega) (by omega)
  simp only [Nat.add_zero, Nat.add_sub_cancel] at m01
  rw [show (y + 1) * (w + 4) + x + 1 = n - 1 from by omega] at m01
  have m11 := s2_master w h c hw2 hwe hh x y 1 1 hx hy (by omega) (by omega)
  rw [show x + w + 1 - 1 = x + w from by omega,
    show y + h + 1 - 1 = y + h from by omega,
    show (y + 1) * (w + 4) + (x + 1) + 1 = n from by omega] at m11
  have m21 := s2_master w h c hw2 hwe hh x y 2 1 hx hy (by omega) (by omega)
  rw [show x + w + 2 - 1 = x + w + 1 from by omega,
    show y + h + 1 - 1 = y + h from by omega,
    show (y + 1) * (w + 4) + (x + 2) + 1 = n + 1 from by omega] at m21
  have m02 := s2_master w h c hw2 hwe hh x y 0 2 hx hy (by omega) (by omega)
  simp only [Nat.add_zero] at m02
  rw [show y + h + 2 - 1 = y + h + 1 from by omega,
    show (y + 2) * (w + 4) + x + 1 = n + (w + 4) - 1 from by omega] at m02
  have m12 := s2_master w h c hw2 hwe hh x y 1 2 hx hy (by omega) (by omega)
  rw [show x + w + 1 - 1 = x + w from by omega,
    show y + h + 2 - 1 = y + h + 1 from by omega,
    show (y + 2) * (w + 4) + (x + 1) + 1 = n + (w + 4) from by omega] at m12
  have m22 := s2_master w h c hw2 hwe hh x y 2 2 hx hy (by omega) (by omega)
  rw [show x + w + 2 - 1 = x + w + 1 from by omega,
    show y + h + 2 - 1 = y + h + 1 from by omega,
    show (y + 2) * (w + 4) + (x + 2) + 1 = n + (w + 4) + 1 from by omega] at m22
  simp only [hst2] at hsum
  rw [m00, m10, m20, m01, m11, m21, m02, m12, m22] at hsum
  have htv : ∀ xx yy : Nat,
      (cond (torus_cell c w h xx yy) 1 0 : Nat) = torus_val c w h xx yy :=
    fun xx yy => rfl
  simp only [htv] at hsum
  have hcnt : nib (count_neighbors 4 w (c1_state2 w h c)) n
      = neighbour_count c w h x y := hsum
  have hcl : neighbour_count c w h x y < 16 := neighbour_count_lt_16 c w h x y
  have hm1n : m1conj w h n = true := by
    unfold m1conj
    have hy4 : y * (w + 4) ≤ (h - 1) * (w + 4) := Nat.mul_le_mul_right _ (by omega)
    have hh4 : (h - 1) * (w + 4) + (w + 4) = h * (w + 4) := by
      have hz : h - 1 + 1 = h := by omega
      calc (h - 1) * (w + 4) + (w + 4) = (h - 1 + 1) * (w + 4) := by ring
        _ = h * (w + 4) := by rw [hz]
    have hcm : (w + 4) * h = h * (w + 4) := Nat.mul_comm _ _
    have hd1 : decide ((w + 4) + 2 ≤ n) = true := dec_true (by omega)
    have hd2 : decide (n - ((w + 4) + 2) < (w + 4) * h) = true := dec_true (by omega)
    rw [hd1, hd2]
    rfl
  have hcvn : canvconj w h n = true := by
    unfold canvconj
    rw [hm1n]
    rw [show n - ((w + 4) + 2) = y * (w + 4) + x from by omega,
      decomp_mod (w + 4) y x (by omega)]
    rw [dec_true hx]
    rfl
  have hc4 : (fold_nibble (count_neighbors 4 w (c1_state2 w h c)
        ^^^ MASK_NOT_4 4 w h)).testBit (4 * n)
      = decide (neighbour_count c w h x y = 4) := by
    rw [testBit_fold_nibble, nib_xor, hcnt, nib_mask_not4 w h n hwe, hm1n]
    exact xor_11_eq_15 _ hcl
  have hc3 : (fold_nibble (count_neighbors 4 w (c1_state2 w h c)
        ^^^ MASK_NOT_3 4 w h)).testBit (4 * n)
      = decide (neighbour_count c w h x y = 3) := by
    rw [testBit_fold_nibble, nib_xor, hcnt, nib_mask_not3 w h n hwe, hm1n]
    exact xor_12_eq_15 _ hcl
  have hc7 : (fold_nibble (count_neighbors 4 w (c1_state2 w h c)
        ^^^ MASK_NOT_7 4 w h)).testBit (4 * n)
      = decide (neighbour_count c w h x y = 7) := by
    rw [testBit_fold_nibble, nib_xor, hcnt, nib_mask_not7 w h n hwe, hm1n]
    exact xor_8_eq_15 _ hcl
  have hsb : (c1_state2 w h c).testBit (4 * n) = c x y := by
    rw [testBit_of_cond_pattern hst2 n, m11]
    unfold torus_cell
    rw [Nat.add_mod_right x w, Nat.add_mod_right y h,
      Nat.mod_eq_of_lt hx, Nat.mod_eq_of_lt hy]
  rw [nib_land, nib_mask_canvas4 w h n hwe, hcvn,
    show (cond true 1 0 : Nat) = 1 from rfl,
    and_one_of_lt _ (nib_lt _ _), decide_cond_eq_one,
    testBit_nib _ _ (show (0 : Nat) < 4 from by omega), Nat.add_zero,
    Nat.testBit_lor, Nat.testBit_land, hsb, hc4]
  cases drylife with
  | false =>
    rw [if_neg (show ¬ (false = true) from by decide), hc3]
    unfold naive_step life_rule
    exact rule_bool_std (c x y) (decide (neighbour_count c w h x y = 3))
      (decide (neighbour_count c w h x y = 4)) (decide (neighbour_count c w h x y = 7))
  | true =>
    rw [if_pos rfl, Nat.testBit_lor, hc3, testBit_pyAndNot, hc7, hsb]
    unfold naive_step life_rule
    exact rule_bool_dry (c x y) (decide (neighbour_count c w h x y = 3))
      (decide (neighbour_count c w h x y = 4)) (decide (neighbour_count c w h x y = 7))

/-- The property claimed for all heights fails for strips of height 1: on a
4x1 canvas with a single live cell, one kernel step disagrees with the naive
toroidal step at cell (0, 0) - for height 1 the top-halo slice degenerates and
lands misaligned. -/
theorem kernel_naive_claim_false_height_one :
    ¬ (decode_cell 4 4
        (life_step false 4 4 1
          (encode_canvas 4 4 1 (fun a b => decide (a = 0) && decide (b = 0)))
          (halo_bottom_message 4 4
            (packed_of 4 4 1 (fun a b => decide (a = 0) && decide (b = 0))))
          (halo_top_message 4 4
            (packed_of 4 4 1 (fun a b => decide (a = 0) && decide (b = 0)))))
        0 0
      = naive_step false (fun a b => decide (a = 0) && decide (b = 0)) 4 1 0 0) := by
  decide

/-- Witness instantiating `life_step_refines_naive` on a concrete 2x2 Drylife
canvas with one live cell. -/
theorem life_step_refines_naive_witness :
    (2 ≤ 2 ∧ 2 % 2 = 0 ∧ (2 : Nat) ≤ 2 ∧ (0 : Nat) < 2 ∧ (1 : Nat) < 2)
    ∧ decode_cell 4 2
        (life_step true 4 2 2
          (encode_canvas 4 2 2 (fun a b => decide (a = 0) && decide (b = 0)))
          (halo_bottom_message 4 2
            (packed_of 4 2 2 (fun a b => decide (a = 0) && decide (b = 0))))
          (halo_top_message 4 2
            (packed_of 4 2 2 (fun a b => decide (a = 0) && decide (b = 0)))))
        0 1
      = naive_step true (fun a b => decide (a = 0) && decide (b = 0)) 2 2 0 1 :=
  ⟨⟨by decide, by decide, by decide, by decide, by decide⟩,
    life_step_refines_naive true 2 2 (fun a b => decide (a = 0) && decide (b = 0))
      (by decide) (by decide) (by decide) 0 1 (by decide) (by decide)⟩

end Swargol
